import Mathlib

/-!
# girlmath: currency subunit/unit conversions

A shallow embedding of `girlmath.go` and a verification of its specification.

Conventions of the embedding:

* A Go `string` is a sequence of bytes.  It is embedded as `List Char`, one `Char`
  per byte, so `len`, slicing, `strings.Split` and `strings.ReplaceAll` act on list
  elements exactly as the Go functions act on bytes.
* A Go function returning `(T, error)` is embedded as a function returning the pair
  `T × Option GoError`; `none` is the `nil` error.  A `*big.Int` result is an
  `Option Int`, `none` being the `nil` pointer.
* `int64` values are integers of `Int`; where the range matters a theorem carries the
  bounds `-2^63 ≤ n < 2^63` explicitly.
-/

set_option maxRecDepth 8000

namespace Girlmath

/-- A Go string: a sequence of bytes, one `Char` per byte. -/
abbrev GoString := List Char

/-- The errors the package can return: its own `errors.New("unexpected currency")`
and the two `strconv` errors `ErrSyntax` and `ErrRange`. -/
inductive GoError where
  | unexpectedCurrency
  | numSyntaxErr
  | numRangeErr
deriving DecidableEq, Repr

/-! ## The standard library functions used by the package -/

/-- The call `strings.ReplaceAll(s, old, new)` for a one-byte `old`. -/
def stringsReplaceAll (s : GoString) (old : Char) (new : GoString) : GoString :=
  s.flatMap (fun c => if c = old then new else [c])

/-- The call `strings.Split(s, sep)` for a one-byte separator: the pieces of `s` between
the occurrences of `sep`; always at least one piece. -/
def stringsSplit : GoString → Char → List GoString
  | [], _ => [[]]
  | c :: cs, sep =>
    if c = sep then [] :: stringsSplit cs sep
    else
      match stringsSplit cs sep with
      | [] => [[c]]
      | p :: ps => (c :: p) :: ps

/-- The call `strings.Repeat(s, count)` for a one-byte `s`. -/
def stringsRepeat (c : Char) (count : Nat) : GoString := List.replicate count c

/-- The ASCII digit of a value below ten. -/
def digitChar (d : Nat) : Char := Char.ofNat (48 + d)

/-- Whether a byte is one of `'0'..'9'`. -/
def isDigit (c : Char) : Bool := 48 ≤ c.toNat && c.toNat ≤ 57

/-- The value of a digit byte (`c - '0'`). -/
def digitVal (c : Char) : Nat := c.toNat - 48

/-- The digit loop of `strconv.FormatInt`/`FormatUint` in base ten: the decimal digits of
`u`, most significant first.  `fuel` bounds the number of digits written (the Go buffer
holds 65 bytes; twenty digits hold every `uint64`). -/
def formatBits : Nat → Nat → GoString
  | 0, _ => []
  | fuel + 1, u =>
    if u < 10 then [digitChar u]
    else formatBits fuel (u / 10) ++ [digitChar (u % 10)]

/-- The call `strconv.FormatInt(i, 10)` on an `int64`. -/
def FormatInt (i : Int) : GoString :=
  if i < 0 then '-' :: formatBits 20 i.natAbs else formatBits 20 i.natAbs

/-- The digit loop of `strconv.ParseUint(s, 10, 64)`: `n` is the value read so far.  A byte
that is not a decimal digit is a syntax error; a value that leaves `uint64` is a range
error, reported at the digit where it happens. -/
def parseUintLoop : GoString → Nat → Nat × Option GoError
  | [], n => (n, none)
  | c :: cs, n =>
    if isDigit c then
      if n ≥ (2 ^ 64 - 1) / 10 + 1 then (2 ^ 64 - 1, some .numRangeErr)
      else
        let n1 := n * 10 + digitVal c
        if n1 > 2 ^ 64 - 1 then (2 ^ 64 - 1, some .numRangeErr)
        else parseUintLoop cs n1
    else (0, some .numSyntaxErr)

/-- The call `strconv.ParseUint(s, 10, 64)`. -/
def ParseUint (s : GoString) : Nat × Option GoError :=
  match s with
  | [] => (0, some .numSyntaxErr)
  | _ => parseUintLoop s 0

/-- The call `strconv.ParseInt(s, 10, 64)`: an optional sign, then `ParseUint`, then the
`int64` range check. -/
def ParseInt (s : GoString) : Int × Option GoError :=
  match s with
  | [] => (0, some .numSyntaxErr)
  | c :: cs =>
    let neg := c = '-'
    let rest := if c = '+' ∨ c = '-' then cs else c :: cs
    let (un, err) := ParseUint rest
    if err ≠ none ∧ err ≠ some .numRangeErr then (0, err)
    else if ¬ neg ∧ un ≥ 2 ^ 63 then (2 ^ 63 - 1, some .numRangeErr)
    else if neg ∧ un > 2 ^ 63 then (-(2 ^ 63), some .numRangeErr)
    else (if neg then -(un : Int) else (un : Int), none)

/-! ## A model of `float64` and of `strconv.ParseFloat` -/

/-- A `float64`: a finite value `(-1)^neg * m * 2^e`, an infinity, or a NaN.  The finite
values produced by the operations below are in the IEEE-754 binary64 form: `m < 2^53`,
`-1074 ≤ e ≤ 971`, and `2^52 ≤ m` unless `e = -1074`. -/
inductive Float64 where
  | finite (neg : Bool) (m : Nat) (e : Int)
  | inf (neg : Bool)
  | nan
deriving DecidableEq, Repr

/-- The number of halvings that bring `n` below 2, added to `acc`: `⌊log2 n⌋` for `n > 0`
when `fuel` is at least that number. -/
def log2Fuel : Nat → Nat → Nat → Nat
  | 0, _, acc => acc
  | fuel + 1, n, acc => if n < 2 then acc else log2Fuel fuel (n / 2) (acc + 1)

/-- The quotient `⌊num / (den * 2^e)⌋`. -/
def scaledQuot (num den : Nat) (e : Int) : Nat :=
  (num * 2 ^ (-e).toNat) / (den * 2 ^ e.toNat)

/-- IEEE-754 binary64 rounding (to nearest, ties to even) of the rational `num / den`
(`den > 0`) with the sign `neg`. -/
def roundRat (neg : Bool) (num den : Nat) : Float64 :=
  if num = 0 then .finite neg 0 (-1074)
  else
    let l : Int := (log2Fuel num num 0 : Int) - (log2Fuel den den 0 : Int)
    let e1 : Int := max (l - 53) (-1074)
    let e : Int := if scaledQuot num den e1 ≥ 2 ^ 53 then e1 + 1 else e1
    let n2 := num * 2 ^ (-e).toNat
    let d2 := den * 2 ^ e.toNat
    let q := n2 / d2
    let r := n2 % d2
    let q := if 2 * r > d2 ∨ (2 * r = d2 ∧ q % 2 = 1) then q + 1 else q
    let e := if q = 2 ^ 53 then e + 1 else e
    let q := if q = 2 ^ 53 then 2 ^ 52 else q
    if e > 971 then .inf neg else .finite neg q e

/-- The conversion `float64(n)` of an integer. -/
def Float64.ofInt (n : Int) : Float64 := roundRat (decide (n < 0)) n.natAbs 1

/-- The product `x * y` of two `float64`. -/
def Float64.mul : Float64 → Float64 → Float64
  | .nan, _ => .nan
  | _, .nan => .nan
  | .inf s, .inf t => .inf (xor s t)
  | .inf s, .finite t m _ => if m = 0 then .nan else .inf (xor s t)
  | .finite s m _, .inf t => if m = 0 then .nan else .inf (xor s t)
  | .finite s m1 e1, .finite t m2 e2 =>
    roundRat (xor s t) (m1 * m2 * 2 ^ (e1 + e2).toNat) (2 ^ (-(e1 + e2)).toNat)

/-- The quotient `x / y` of two `float64`. -/
def Float64.div : Float64 → Float64 → Float64
  | .nan, _ => .nan
  | _, .nan => .nan
  | .inf _, .inf _ => .nan
  | .inf s, .finite t _ _ => .inf (xor s t)
  | .finite s _ _, .inf t => .finite (xor s t) 0 (-1074)
  | .finite s m1 e1, .finite t m2 e2 =>
    if m2 = 0 then (if m1 = 0 then .nan else .inf (xor s t))
    else roundRat (xor s t) (m1 * 2 ^ (e1 - e2).toNat) (m2 * 2 ^ (e2 - e1).toNat)

/-- Reduction of an integer to the `int64` it is congruent to modulo `2^64`. -/
def wrapInt64 (z : Int) : Int := (z + 2 ^ 63) % 2 ^ 64 - 2 ^ 63

/-- The conversion `int64(f)`: truncation toward zero when the truncated value is an
`int64`.  Otherwise the Go specification leaves the result to the implementation; `oor`
stands for that choice, reduced to an `int64`. -/
def Float64.toInt64 (oor : Float64 → Int) (f : Float64) : Int :=
  match f with
  | .finite neg m e =>
    let t : Int := ((m * 2 ^ e.toNat / 2 ^ (-e).toNat : Nat) : Int)
    let v : Int := if neg then -t else t
    if -(2 ^ 63) ≤ v ∧ v < 2 ^ 63 then v else wrapInt64 (oor f)
  | _ => wrapInt64 (oor f)

/-- The Go helper `lower`: `c | ('x' - 'X')`, the lower-case letter of an ASCII letter. -/
def lower (c : Char) : Char := Char.ofNat (c.toNat ||| 32)

/-- The Go helper `commonPrefixLenIgnoreCase(s, pre)`: the length of the longest common
beginning of `s` and the lower-case string `pre`, ASCII upper-case letters of `s` read as
lower case. -/
def commonPrefixLenIgnoreCase : GoString → GoString → Nat
  | c :: s, p :: pre =>
    let c := if 65 ≤ c.toNat ∧ c.toNat ≤ 90 then Char.ofNat (c.toNat + 32) else c
    if c ≠ p then 0 else commonPrefixLenIgnoreCase s pre + 1
  | _, _ => 0

/-- The Go helper `special`: the value and the number of bytes read when `s` starts with a
(possibly signed) `inf`/`infinity` or with `nan`, in any case. -/
def special (s : GoString) : Option (Float64 × Nat) :=
  match s with
  | [] => none
  | c :: rest =>
    if c = '+' ∨ c = '-' then
      let n := commonPrefixLenIgnoreCase rest ['i', 'n', 'f', 'i', 'n', 'i', 't', 'y']
      let n := if 3 < n ∧ n < 8 then 3 else n
      if n = 3 ∨ n = 8 then some (.inf (decide (c = '-')), 1 + n) else none
    else if c = 'i' ∨ c = 'I' then
      let n := commonPrefixLenIgnoreCase s ['i', 'n', 'f', 'i', 'n', 'i', 't', 'y']
      let n := if 3 < n ∧ n < 8 then 3 else n
      if n = 3 ∨ n = 8 then some (.inf false, n) else none
    else if c = 'n' ∨ c = 'N' then
      if commonPrefixLenIgnoreCase s ['n', 'a', 'n'] = 3 then some (.nan, 3) else none
    else none

/-- The loop of the Go helper `underscoreOK`; `saw` is the class of the last byte: `'0'` a
digit or base prefix, `'_'` an underscore, `'!'` anything else, `'^'` the beginning. -/
def underscoreOKLoop (hex : Bool) : GoString → Char → Bool
  | [], saw => saw ≠ '_'
  | c :: cs, saw =>
    if isDigit c || (hex && decide (97 ≤ (lower c).toNat ∧ (lower c).toNat ≤ 102)) then
      underscoreOKLoop hex cs '0'
    else if c = '_' then
      if saw ≠ '0' then false else underscoreOKLoop hex cs '_'
    else if saw = '_' then false
    else underscoreOKLoop hex cs '!'

/-- The Go helper `underscoreOK`: underscores only between digits, or between a base prefix
and a digit. -/
def underscoreOK (s : GoString) : Bool :=
  let s := match s with
    | c :: cs => if c = '-' ∨ c = '+' then cs else s
    | [] => s
  match s with
  | c0 :: c1 :: cs =>
    if c0 = '0' ∧ (lower c1 = 'b' ∨ lower c1 = 'o' ∨ lower c1 = 'x') then
      underscoreOKLoop (decide (lower c1 = 'x')) cs '0'
    else underscoreOKLoop false s '^'
  | _ => underscoreOKLoop false s '^'

/-- The state of the mantissa loop of `readFloat`: the value of the digits read, their
number, the number of digits read when the point was met, and the flags of the loop. -/
structure MantissaState where
  mantissa : Nat
  nd : Nat
  dp : Nat
  sawdot : Bool
  sawdigits : Bool
  underscores : Bool
deriving Repr

/-- The mantissa loop of the Go helper `readFloat`, returning the state and the bytes not
read.  The digits are accumulated exactly (Go keeps the first 19 and a truncation flag and
converts the long cases through its exact `decimal` type, with the same rounded result). -/
def readMantissa (hex : Bool) : GoString → MantissaState → MantissaState × GoString
  | [], st => (st, [])
  | c :: cs, st =>
    if c = '_' then
      readMantissa hex cs ⟨st.mantissa, st.nd, st.dp, st.sawdot, st.sawdigits, true⟩
    else if c = '.' then
      if st.sawdot then (st, c :: cs)
      else readMantissa hex cs ⟨st.mantissa, st.nd, st.nd, true, st.sawdigits, st.underscores⟩
    else if isDigit c then
      readMantissa hex cs ⟨st.mantissa * (if hex then 16 else 10) + digitVal c, st.nd + 1,
        st.dp, st.sawdot, true, st.underscores⟩
    else if hex && decide (97 ≤ (lower c).toNat ∧ (lower c).toNat ≤ 102) then
      readMantissa hex cs ⟨st.mantissa * 16 + ((lower c).toNat - 97 + 10), st.nd + 1,
        st.dp, st.sawdot, true, st.underscores⟩
    else (st, c :: cs)

/-- The exponent digit loop of `readFloat`: the exponent read (it stops growing at 10000),
whether an underscore was met, and the bytes not read. -/
def readExponent : GoString → Nat → Bool → Nat × Bool × GoString
  | [], e, u => (e, u, [])
  | c :: cs, e, u =>
    if isDigit c then readExponent cs (if e < 10000 then e * 10 + digitVal c else e) u
    else if c = '_' then readExponent cs e true
    else (e, u, c :: cs)

/-- The result of `readFloat`: sign, base, the digits as a number, the exponent of the base
(10, or 2 for a hexadecimal mantissa), and the bytes not read. -/
structure ReadFloat where
  neg : Bool
  hex : Bool
  mantissa : Nat
  exp : Int
  rest : GoString
deriving Repr

/-- The Go helper `readFloat`: `none` when the beginning of `s` is not a number. -/
def readFloat (s : GoString) : Option ReadFloat :=
  match s with
  | [] => none
  | c :: cs =>
    let neg := decide (c = '-')
    let t := if c = '+' ∨ c = '-' then cs else s
    let hex := match t with
      | c0 :: c1 :: _ :: _ => decide (c0 = '0' ∧ lower c1 = 'x')
      | _ => false
    let t := if hex then t.drop 2 else t
    let (st, rest) := readMantissa hex t ⟨0, 0, 0, false, false, false⟩
    if ¬ st.sawdigits then none
    else
      let frac : Nat := if st.sawdot then st.nd - st.dp else 0
      let dp : Int := if hex then -(4 * frac : Nat) else -(frac : Nat)
      let expChar := if hex then 'p' else 'e'
      match rest with
      | x :: xs =>
        if lower x = expChar then
          match xs with
          | [] => none
          | y :: ys =>
            let esign : Int := if y = '-' then -1 else 1
            let zs := if y = '+' ∨ y = '-' then ys else xs
            match zs with
            | [] => none
            | z :: _ =>
              if ¬ isDigit z then none
              else
                let (e, u, rest2) := readExponent zs 0 false
                if (st.underscores || u)
                    && ! underscoreOK (s.take (s.length - rest2.length)) then none
                else some ⟨neg, hex, st.mantissa, dp + e * esign, rest2⟩
        else if hex then none
        else if st.underscores && ! underscoreOK (s.take (s.length - rest.length)) then none
        else some ⟨neg, hex, st.mantissa, dp, rest⟩
      | [] =>
        if hex then none
        else if st.underscores && ! underscoreOK s then none
        else some ⟨neg, hex, st.mantissa, dp, []⟩

/-- The call `strconv.ParseFloat(s, 64)`: the special values, or a decimal or hexadecimal
floating-point numeral read entirely, rounded to the nearest `float64` (ties to even); a
numeral that rounds to an infinity is a range error. -/
def ParseFloat (s : GoString) : Float64 × Option GoError :=
  match special s with
  | some (f, n) => if n ≠ s.length then (.finite false 0 (-1074), some .numSyntaxErr) else (f, none)
  | none =>
    match readFloat s with
    | none => (.finite false 0 (-1074), some .numSyntaxErr)
    | some r =>
      if r.rest ≠ [] then (.finite false 0 (-1074), some .numSyntaxErr)
      else
        let b : Nat := if r.hex then 2 else 10
        let f := roundRat r.neg (r.mantissa * b ^ r.exp.toNat) (b ^ (-r.exp).toNat)
        match f with
        | .inf _ => (f, some .numRangeErr)
        | _ => (f, none)

/-! ## The package -/

/-- The Go constant `BTCSubunitsPerUnit`. -/
def BTCSubunitsPerUnit : Int := 100000000
/-- The Go constant `BTCSubunitsSigDigs`. -/
def BTCSubunitsSigDigs : Nat := 8
/-- The Go constant `USDSubunitsPerUnit`. -/
def USDSubunitsPerUnit : Int := 100
/-- The Go constant `USDSubunitsSigDigs`. -/
def USDSubunitsSigDigs : Nat := 2
/-- The Go constant `KESSubunitsPerUnit`. -/
def KESSubunitsPerUnit : Int := 100
/-- The Go constant `KESSubunitsSigDigs`. -/
def KESSubunitsSigDigs : Nat := 2
/-- The Go constant `USDCSubunitsPerUnit`. -/
def USDCSubunitsPerUnit : Int := 100
/-- The Go constant `USDCSubunitsSigDigs`. -/
def USDCSubunitsSigDigs : Nat := 6
/-- The Go constant `MXNSubunitsPerUnit`. -/
def MXNSubunitsPerUnit : Int := 100
/-- The Go constant `MXNSubunitsSigDigs`. -/
def MXNSubunitsSigDigs : Nat := 2

/-- The Go struct `CurrencyConstants`.  `SigDigs` is only used as a length. -/
structure CurrencyConstants where
  SubunitsPerUnit : Int
  SigDigs : Nat
deriving DecidableEq, Repr

/-- The zero value `CurrencyConstants{}`. -/
def CurrencyConstants.zero : CurrencyConstants := ⟨0, 0⟩

/-- The Go function `GetConversionConstants`: a `switch` on the currency code. -/
def GetConversionConstants (currencyCode : GoString) : CurrencyConstants × Option GoError :=
  if currencyCode = ['U', 'S', 'D', 'C'] then
    (⟨USDCSubunitsPerUnit, USDCSubunitsSigDigs⟩, none)
  else if currencyCode = ['U', 'S', 'D'] then
    (⟨USDSubunitsPerUnit, USDSubunitsSigDigs⟩, none)
  else if currencyCode = ['B', 'T', 'C'] then
    (⟨BTCSubunitsPerUnit, BTCSubunitsSigDigs⟩, none)
  else if currencyCode = ['K', 'E', 'S'] then
    (⟨KESSubunitsPerUnit, KESSubunitsSigDigs⟩, none)
  else if currencyCode = ['M', 'X', 'N'] then
    (⟨MXNSubunitsPerUnit, MXNSubunitsSigDigs⟩, none)
  else
    (CurrencyConstants.zero, some .unexpectedCurrency)

/-- The Go function `CalculatePayoutAmountSubunitsWithPayinCurrencySpotPrice`.  `oor` is the
implementation-dependent result of converting an out-of-range `float64` to `int64`. -/
def CalculatePayoutAmountSubunitsWithPayinCurrencySpotPrice (oor : Float64 → Int)
    (payinCurrency payoutCurrency : GoString) (payinAmountSubunits : Int)
    (payinCurrencyUnitsPerPayoutCurrencyUnit : GoString) : Option Int × Option GoError :=
  match GetConversionConstants payinCurrency with
  | (_, some err) => (none, some err)
  | (payinConstants, none) =>
    match GetConversionConstants payoutCurrency with
    | (_, some err) => (none, some err)
    | (payoutConstants, none) =>
      let payinCurrencyUnitsPerPayoutCurrencyUnit :=
        stringsReplaceAll payinCurrencyUnitsPerPayoutCurrencyUnit ',' []
      match ParseFloat payinCurrencyUnitsPerPayoutCurrencyUnit with
      | (_, some err) => (none, some err)
      | (payinUnitsPerPayoutUnitStripped, none) =>
        let payinSubunitsPerPayoutUnit :=
          payinUnitsPerPayoutUnitStripped.mul (Float64.ofInt payinConstants.SubunitsPerUnit)
        let payoutAmountUnits :=
          (Float64.ofInt payinAmountSubunits).div payinSubunitsPerPayoutUnit
        let payoutAmountSubunits :=
          (payoutAmountUnits.mul (Float64.ofInt payoutConstants.SubunitsPerUnit)).toInt64 oor
        (some payoutAmountSubunits, none)

/-- The Go function `CalculatePayoutAmountSubunitsWithPayoutCurrencySpotPrice`.  `oor` is the
implementation-dependent result of converting an out-of-range `float64` to `int64`. -/
def CalculatePayoutAmountSubunitsWithPayoutCurrencySpotPrice (oor : Float64 → Int)
    (payinCurrency payoutCurrency : GoString) (payinAmountSubunits : Int)
    (payoutCurrencyUnitsPerPayinCurrencyUnit : GoString) : Option Int × Option GoError :=
  match GetConversionConstants payinCurrency with
  | (_, some err) => (none, some err)
  | (payinConstants, none) =>
    match GetConversionConstants payoutCurrency with
    | (_, some err) => (none, some err)
    | (payoutConstants, none) =>
      let payoutCurrencyUnitsPerPayinCurrencyUnit :=
        stringsReplaceAll payoutCurrencyUnitsPerPayinCurrencyUnit ',' []
      match ParseFloat payoutCurrencyUnitsPerPayinCurrencyUnit with
      | (_, some err) => (none, some err)
      | (payoutUnitPerPayinUnitsStripped, none) =>
        let payoutUnitsPerPayinUnit :=
          (Float64.ofInt payinConstants.SubunitsPerUnit).div payoutUnitPerPayinUnitsStripped
        let payoutAmountUnits :=
          (Float64.ofInt payinAmountSubunits).div payoutUnitsPerPayinUnit
        let payoutAmountSubunits :=
          (payoutAmountUnits.mul (Float64.ofInt payoutConstants.SubunitsPerUnit)).toInt64 oor
        (some payoutAmountSubunits, none)

/-- The Go function `ConvertSubunitsToUnits`.  The `int64` division and remainder truncate
toward zero (`Int.tdiv`, `Int.tmod`). -/
def ConvertSubunitsToUnits (amountSubunits : Int) (currencyCode : GoString) :
    GoString × Option GoError :=
  match GetConversionConstants currencyCode with
  | (_, some err) => ([], some err)
  | (constants, none) =>
    let amountUnits := Int.tdiv amountSubunits constants.SubunitsPerUnit
    let remainingSubunits := Int.tmod amountSubunits constants.SubunitsPerUnit
    let subunitsString := FormatInt remainingSubunits
    let subunitsLength := subunitsString.length
    let subunitsString :=
      if remainingSubunits = 0 then
        stringsRepeat '0' constants.SigDigs
      else if subunitsLength < constants.SigDigs then
        stringsRepeat '0' (constants.SigDigs - subunitsLength) ++ subunitsString
      else if subunitsLength > constants.SigDigs then
        subunitsString.take constants.SigDigs
      else subunitsString
    (FormatInt amountUnits ++ '.' :: subunitsString, none)

/-- The Go function `ConvertUnitsToSubunits`. -/
def ConvertUnitsToSubunits (amountUnits : GoString) (currencyCode : GoString) :
    GoString × Option GoError :=
  match GetConversionConstants currencyCode with
  | (_, some err) => ([], some err)
  | (constants, none) =>
    let amountUnits := stringsReplaceAll amountUnits ',' []
    let parts := stringsSplit amountUnits '.'
    let majorSegment := parts.headD []
    let minorSegment := if parts.length > 1 then parts.getD 1 [] else []
    let minorSegment :=
      if minorSegment.length < constants.SigDigs then
        minorSegment ++ stringsRepeat '0' (constants.SigDigs - minorSegment.length)
      else if minorSegment.length > constants.SigDigs then
        minorSegment.take constants.SigDigs
      else minorSegment
    let majorSegment := if majorSegment = [] then ['0'] else majorSegment
    match ParseInt (majorSegment ++ minorSegment) with
    | (_, some err) => ([], some err)
    | (subunits, none) => (FormatInt subunits, none)

/-! ## Specification vocabulary -/

/-- The currency codes of the registry. -/
def registry : List GoString :=
  [['U', 'S', 'D', 'C'], ['U', 'S', 'D'], ['B', 'T', 'C'], ['K', 'E', 'S'], ['M', 'X', 'N']]

/-- The currency codes whose scale is `10^SigDigs`: the registry without `"USDC"`. -/
def scaleConsistent : List GoString :=
  [['B', 'T', 'C'], ['U', 'S', 'D'], ['K', 'E', 'S'], ['M', 'X', 'N']]

/-- Every byte of the string is a decimal digit. -/
def allDigits (s : GoString) : Prop := ∀ c ∈ s, isDigit c = true

instance (s : GoString) : Decidable (allDigits s) := by
  unfold allDigits; infer_instance

/-- The number a string of decimal digits denotes, read from `acc`. -/
def decValFrom (acc : Nat) (s : GoString) : Nat := s.foldl (fun a c => a * 10 + digitVal c) acc

/-- The number a string of decimal digits denotes. -/
def decVal (s : GoString) : Nat := decValFrom 0 s

/-- The string `r` is the canonical decimal numeral of `v`: digits only, value `v`, not empty,
and no leading zero unless it is `"0"`. -/
def canonicalDecimal (r : GoString) (v : Nat) : Prop :=
  allDigits r ∧ decVal r = v ∧ r ≠ [] ∧ (r.head? = some '0' → r = ['0'])

instance (r : GoString) (v : Nat) : Decidable (canonicalDecimal r v) := by
  unfold canonicalDecimal; infer_instance

/-- The string is an integer literal of `strconv.ParseInt` in base ten: an optional sign
followed by at least one decimal digit. -/
def isIntLiteral (t : GoString) : Prop :=
  match t with
  | [] => False
  | c :: cs => if c = '+' ∨ c = '-' then cs ≠ [] ∧ allDigits cs else allDigits (c :: cs)

instance (t : GoString) : Decidable (isIntLiteral t) := by
  unfold isIntLiteral
  cases t with
  | nil => exact instDecidableFalse
  | cons c cs => simp only; infer_instance

/-- The text the specification has `unitsStringToSubunits` parse as an integer: commas
stripped, the amount split on the decimal point into a major and a minor segment (the
segments after a second point play no part), the minor segment cut to `sigDigs` bytes or
padded on the right with zeros to that length, an empty major segment read as `"0"`, and
the two concatenated. -/
def parsedText (sigDigs : Nat) (amountUnits : GoString) : GoString :=
  (if ((stringsSplit (amountUnits.filter (fun c => c ≠ ',')) '.').headD []) = [] then ['0']
    else (stringsSplit (amountUnits.filter (fun c => c ≠ ',')) '.').headD []) ++
  ((((stringsSplit (amountUnits.filter (fun c => c ≠ ',')) '.').drop 1).headD []).take sigDigs
    ++ List.replicate
      (sigDigs - (((stringsSplit (amountUnits.filter (fun c => c ≠ ',')) '.').drop 1).headD
        []).length) '0')

/-- The string has the shape `[sign] digits ["." digits]` of a decimal number, each `digits`
being one or more decimal digits. -/
def isDecimalNumber (s : GoString) : Bool :=
  let body := match s with
    | c :: cs => if c = '+' ∨ c = '-' then cs else s
    | [] => []
  let whole := body.takeWhile isDigit
  let rest := body.dropWhile isDigit
  ! whole.isEmpty &&
    (match rest with
      | [] => true
      | c :: d => c == '.' && ! d.isEmpty && d.all isDigit)

/-- The text `ConvertSubunitsToUnits` writes after the decimal point for the remainder
`remainingSubunits` (the source between the division and the final concatenation). -/
def subunitsText (sigDigs : Nat) (remainingSubunits : Int) : GoString :=
  if remainingSubunits = 0 then
    stringsRepeat '0' sigDigs
  else if (FormatInt remainingSubunits).length < sigDigs then
    stringsRepeat '0' (sigDigs - (FormatInt remainingSubunits).length)
      ++ FormatInt remainingSubunits
  else if (FormatInt remainingSubunits).length > sigDigs then
    (FormatInt remainingSubunits).take sigDigs
  else FormatInt remainingSubunits

/-- Truncation toward zero of a rational number. -/
def truncRat (q : ℚ) : Int := if 0 ≤ q then Int.floor q else Int.ceil q

/-- The rational number a finite `float64` denotes; `none` for an infinity or a NaN. -/
def Float64.value : Float64 → Option ℚ
  | .finite neg m e => some ((if neg then -1 else 1) * ((m : ℚ) * (2 : ℚ) ^ e))
  | _ => none

/-- What `ConvertUnitsToSubunits` computes from the two segments (the source after the
split): pad or cut the minor segment to `sigDigs` bytes, read an empty major segment as
`"0"`, parse the concatenation and format it. -/
def segmentsToSubunits (sigDigs : Nat) (majorSegment minorSegment : GoString) :
    GoString × Option GoError :=
  let minorSegment :=
    if minorSegment.length < sigDigs then
      minorSegment ++ stringsRepeat '0' (sigDigs - minorSegment.length)
    else if minorSegment.length > sigDigs then
      minorSegment.take sigDigs
    else minorSegment
  let majorSegment := if majorSegment = [] then ['0'] else majorSegment
  match ParseInt (majorSegment ++ minorSegment) with
  | (_, some err) => ([], some err)
  | (subunits, none) => (FormatInt subunits, none)

/-! ## Lemmas on digits -/

theorem isDigit_digitChar (d : Nat) (h : d < 10) : isDigit (digitChar d) = true := by
  interval_cases d <;> rfl

theorem digitVal_digitChar (d : Nat) (h : d < 10) : digitVal (digitChar d) = d := by
  interval_cases d <;> rfl

theorem digitVal_lt_of_isDigit (c : Char) (h : isDigit c = true) : digitVal c < 10 := by
  unfold isDigit at h
  unfold digitVal
  simp only [Bool.and_eq_true, decide_eq_true_eq] at h
  omega

theorem digitChar_eq_zero_iff (d : Nat) (h : d < 10) : digitChar d = '0' ↔ d = 0 := by
  interval_cases d <;> decide

theorem isDigit_ne_of_not (c d : Char) (hc : isDigit c = true) (hd : isDigit d = false) :
    c ≠ d := by
  intro h; rw [h, hd] at hc; exact Bool.noConfusion hc

theorem allDigits_nil : allDigits [] := by
  intro c hc; cases hc

theorem allDigits_cons (c : Char) (s : GoString) :
    allDigits (c :: s) ↔ isDigit c = true ∧ allDigits s := by
  simp [allDigits]

theorem allDigits_append (a b : GoString) :
    allDigits (a ++ b) ↔ allDigits a ∧ allDigits b := by
  simp only [allDigits, List.mem_append]
  constructor
  · intro h; exact ⟨fun c hc => h c (Or.inl hc), fun c hc => h c (Or.inr hc)⟩
  · rintro ⟨h1, h2⟩ c (hc | hc)
    · exact h1 c hc
    · exact h2 c hc

theorem allDigits_replicate_zero (k : Nat) : allDigits (List.replicate k '0') := by
  intro c hc
  rw [List.eq_of_mem_replicate hc]; rfl

theorem allDigits_take (s : GoString) (k : Nat) (h : allDigits s) : allDigits (s.take k) :=
  fun c hc => h c (List.mem_of_mem_take hc)

theorem not_mem_of_allDigits (s : GoString) (d : Char) (h : allDigits s)
    (hd : isDigit d = false) : d ∉ s := by
  intro hmem
  have := h d hmem
  rw [hd] at this; exact Bool.noConfusion this

theorem decValFrom_append (acc : Nat) (a b : GoString) :
    decValFrom acc (a ++ b) = decValFrom (decValFrom acc a) b := by
  simp [decValFrom, List.foldl_append]

theorem decValFrom_eq (acc : Nat) (s : GoString) :
    decValFrom acc s = acc * 10 ^ s.length + decVal s := by
  induction s generalizing acc with
  | nil => simp [decValFrom, decVal]
  | cons c cs ih =>
    have h1 : decValFrom acc (c :: cs) = decValFrom (acc * 10 + digitVal c) cs := rfl
    have h2 : decVal (c :: cs) = decValFrom (0 * 10 + digitVal c) cs := rfl
    rw [h1, h2, ih, ih (0 * 10 + digitVal c), List.length_cons]
    ring

theorem decVal_append (a b : GoString) :
    decVal (a ++ b) = decVal a * 10 ^ b.length + decVal b := by
  unfold decVal
  rw [decValFrom_append, decValFrom_eq]
  rfl

theorem decVal_replicate_zero (k : Nat) : decVal (List.replicate k '0') = 0 := by
  induction k with
  | zero => rfl
  | succ k ih =>
    rw [List.replicate_succ]
    have : decVal ('0' :: List.replicate k '0')
        = decValFrom (0 * 10 + digitVal '0') (List.replicate k '0') := rfl
    have h0 : digitVal '0' = 0 := rfl
    rw [this, decValFrom_eq, ih, h0]
    simp

theorem decVal_lt_pow (s : GoString) (h : allDigits s) : decVal s < 10 ^ s.length := by
  induction s using List.reverseRecOn with
  | nil => simp [decVal, decValFrom]
  | append_singleton s c ih =>
    rw [allDigits_append] at h
    have hc : digitVal c < 10 := digitVal_lt_of_isDigit c (h.2 c (List.mem_singleton_self c))
    have hs := ih h.1
    rw [decVal_append]
    have h1 : decVal [c] = digitVal c := by simp [decVal, decValFrom]
    rw [h1]
    simp only [List.length_singleton, pow_one, List.length_append, pow_succ]
    omega

/-! ## Lemmas on `formatBits` and `FormatInt` -/

theorem formatBits_spec (fuel u : Nat) (h : u < 10 ^ fuel) (hf : 0 < fuel) :
    allDigits (formatBits fuel u) ∧ decVal (formatBits fuel u) = u ∧ formatBits fuel u ≠ [] ∧
      ((formatBits fuel u).head? = some '0' → formatBits fuel u = ['0']) := by
  induction fuel generalizing u with
  | zero => omega
  | succ fuel ih =>
    unfold formatBits
    by_cases hu : u < 10
    · simp only [hu, if_true]
      refine ⟨?_, ?_, by simp, ?_⟩
      · intro c hc
        rw [List.mem_singleton] at hc; subst hc
        exact isDigit_digitChar u hu
      · simp [decVal, decValFrom, digitVal_digitChar u hu]
      · intro h0
        simp only [List.head?_cons, Option.some.injEq] at h0
        rw [h0]
    · simp only [hu, if_false]
      have hq : u / 10 < 10 ^ fuel := by
        rw [pow_succ] at h
        exact Nat.div_lt_of_lt_mul (by omega)
      have hf0 : 0 < fuel := by
        rcases Nat.eq_zero_or_pos fuel with h0 | h0
        · subst h0; simp at hq; omega
        · exact h0
      obtain ⟨h1, h2, h3, h4⟩ := ih (u / 10) hq hf0
      have hm : u % 10 < 10 := Nat.mod_lt _ (by norm_num)
      refine ⟨?_, ?_, by simp, ?_⟩
      · rw [allDigits_append]
        refine ⟨h1, ?_⟩
        intro c hc
        rw [List.mem_singleton] at hc; subst hc
        exact isDigit_digitChar _ hm
      · rw [decVal_append, h2]
        have : decVal [digitChar (u % 10)] = u % 10 := by
          simp [decVal, decValFrom, digitVal_digitChar _ hm]
        rw [this]
        simp only [List.length_singleton, pow_one]
        omega
      · intro h0
        have hne := h3
        cases hfb : formatBits fuel (u / 10) with
        | nil => exact absurd hfb h3
        | cons c cs =>
          rw [hfb] at h0 h4 h2
          simp only [List.cons_append, List.head?_cons, Option.some.injEq] at h0
          have := h4 (by simp [h0])
          rw [this] at h2
          have hz : decVal ['0'] = 0 := rfl
          omega

theorem formatBits_length_le (fuel u d : Nat) (hu : u < 10 ^ d) (hd : 0 < d) :
    (formatBits fuel u).length ≤ d := by
  induction fuel generalizing u d with
  | zero => simp [formatBits]
  | succ fuel ih =>
    unfold formatBits
    by_cases h10 : u < 10
    · simp only [h10, if_true, List.length_singleton]; omega
    · simp only [h10, if_false, List.length_append, List.length_singleton]
      obtain ⟨e, rfl⟩ : ∃ e, d = e + 1 := ⟨d - 1, by omega⟩
      have he : 0 < e := by
        rcases Nat.eq_zero_or_pos e with h0 | h0
        · subst h0; simp at hu; omega
        · exact h0
      have hq : u / 10 < 10 ^ e := by
        rw [pow_succ] at hu
        exact Nat.div_lt_of_lt_mul (by omega)
      have := ih (u / 10) e hq he
      omega

theorem FormatInt_ofNat (u : Nat) : FormatInt (u : Int) = formatBits 20 u := by
  unfold FormatInt
  have : ¬ ((u : Int) < 0) := by omega
  simp [this]

theorem FormatInt_canonical (u : Nat) (h : u < 10 ^ 20) :
    canonicalDecimal (FormatInt (u : Int)) u := by
  rw [FormatInt_ofNat]
  exact formatBits_spec 20 u h (by norm_num)

/-! ## Lemmas on `ParseUint` and `ParseInt` -/

theorem decVal_cons (c : Char) (s : GoString) :
    decVal (c :: s) = digitVal c * 10 ^ s.length + decVal s := by
  have h : decVal (c :: s) = decValFrom (0 * 10 + digitVal c) s := rfl
  rw [h, decValFrom_eq]
  simp

theorem parseUintLoop_digits (s : GoString) (n : Nat) (hs : allDigits s)
    (hv : n * 10 ^ s.length + decVal s < 2 ^ 64) :
    parseUintLoop s n = (n * 10 ^ s.length + decVal s, none) := by
  induction s generalizing n with
  | nil => simp [parseUintLoop, decVal, decValFrom]
  | cons c cs ih =>
    rw [allDigits_cons] at hs
    have hval : n * 10 ^ (c :: cs).length + decVal (c :: cs)
        = (n * 10 + digitVal c) * 10 ^ cs.length + decVal cs := by
      rw [decVal_cons, List.length_cons, pow_succ]; ring
    rw [hval] at hv ⊢
    have hpos : 0 < 10 ^ cs.length := Nat.pow_pos (by norm_num)
    have hle : n * 10 + digitVal c ≤ (n * 10 + digitVal c) * 10 ^ cs.length :=
      Nat.le_mul_of_pos_right _ hpos
    have hn1 : n * 10 + digitVal c < 2 ^ 64 := by omega
    unfold parseUintLoop
    have hcut : ¬ (n ≥ (2 ^ 64 - 1) / 10 + 1) := by
      norm_num at hn1 ⊢; omega
    have hmax : ¬ (n * 10 + digitVal c > 2 ^ 64 - 1) := by
      norm_num at hn1 ⊢; omega
    simp only [hs.1, if_true, hcut, if_false, hmax]
    exact ih _ hs.2 hv

theorem ParseInt_digits (s : GoString) (hne : s ≠ []) (hs : allDigits s)
    (hv : decVal s < 2 ^ 63) : ParseInt s = ((decVal s : Int), none) := by
  cases s with
  | nil => exact absurd rfl hne
  | cons c cs =>
    have hc : isDigit c = true := ((allDigits_cons c cs).1 hs).1
    have hplus : c ≠ '+' := fun h => by rw [h] at hc; exact absurd hc (by decide)
    have hminus : c ≠ '-' := fun h => by rw [h] at hc; exact absurd hc (by decide)
    have hloop := parseUintLoop_digits (c :: cs) 0 hs (by
      have : (2 : Nat) ^ 63 < 2 ^ 64 := by norm_num
      omega)
    simp only [Nat.zero_mul, Nat.zero_add] at hloop
    have hpu : ParseUint (c :: cs) = (decVal (c :: cs), none) := by
      unfold ParseUint; exact hloop
    unfold ParseInt
    simp only [hplus, hminus, or_self, if_false, hpu]
    have h63 : decVal (c :: cs) < 9223372036854775808 := by
      norm_num at hv; exact hv
    simp [h63]

/-! ## Lemmas on `strings.ReplaceAll` and `strings.Split` -/

theorem stringsReplaceAll_of_not_mem (s : GoString) (old : Char) (new : GoString)
    (h : old ∉ s) : stringsReplaceAll s old new = s := by
  induction s with
  | nil => rfl
  | cons c cs ih =>
    have hc : c ≠ old := fun e => h (by rw [e]; exact List.mem_cons_self _ _)
    have hcs : old ∉ cs := fun e => h (List.mem_cons_of_mem _ e)
    have := ih hcs
    unfold stringsReplaceAll at this ⊢
    simp only [List.flatMap_cons, hc, if_false, this, List.singleton_append]

theorem stringsSplit_ne_nil (s : GoString) (sep : Char) : stringsSplit s sep ≠ [] := by
  induction s with
  | nil => simp [stringsSplit]
  | cons c cs ih =>
    unfold stringsSplit
    split_ifs
    · simp
    · split <;> simp

theorem stringsSplit_of_not_mem (s : GoString) (sep : Char) (h : sep ∉ s) :
    stringsSplit s sep = [s] := by
  induction s with
  | nil => rfl
  | cons c cs ih =>
    have hc : c ≠ sep := fun e => h (by rw [e]; exact List.mem_cons_self _ _)
    have hcs : sep ∉ cs := fun e => h (List.mem_cons_of_mem _ e)
    unfold stringsSplit
    simp only [hc, if_false, ih hcs]

theorem stringsSplit_append_sep (a b : GoString) (sep : Char) (h : sep ∉ a) :
    stringsSplit (a ++ sep :: b) sep = a :: stringsSplit b sep := by
  induction a with
  | nil => simp [stringsSplit]
  | cons c cs ih =>
    have hc : c ≠ sep := fun e => h (by rw [e]; exact List.mem_cons_self _ _)
    have hcs : sep ∉ cs := fun e => h (List.mem_cons_of_mem _ e)
    rw [List.cons_append]
    rw [stringsSplit]
    simp only [hc, if_false, ih hcs]

/-! ## `ConvertUnitsToSubunits` on an amount with at most one decimal point -/

theorem ConvertUnitsToSubunits_point (code : GoString) (k : CurrencyConstants)
    (hk : GetConversionConstants code = (k, none)) (major minor : GoString)
    (h1 : ',' ∉ major) (h2 : '.' ∉ major) (h3 : ',' ∉ minor) (h4 : '.' ∉ minor) :
    ConvertUnitsToSubunits (major ++ '.' :: minor) code
      = segmentsToSubunits k.SigDigs major minor := by
  have hc : ',' ∉ major ++ '.' :: minor := by
    simp only [List.mem_append, List.mem_cons, not_or]
    exact ⟨h1, by decide, h3⟩
  unfold ConvertUnitsToSubunits segmentsToSubunits
  rw [hk]
  simp only [stringsReplaceAll_of_not_mem _ _ _ hc, stringsSplit_append_sep _ _ _ h2,
    stringsSplit_of_not_mem _ _ h4]
  simp

theorem ConvertUnitsToSubunits_noPoint (code : GoString) (k : CurrencyConstants)
    (hk : GetConversionConstants code = (k, none)) (major : GoString)
    (h1 : ',' ∉ major) (h2 : '.' ∉ major) :
    ConvertUnitsToSubunits major code = segmentsToSubunits k.SigDigs major [] := by
  unfold ConvertUnitsToSubunits segmentsToSubunits
  rw [hk]
  simp only [stringsReplaceAll_of_not_mem _ _ _ h1, stringsSplit_of_not_mem _ _ h2]
  simp

theorem segmentsToSubunits_digits (d : Nat) (major minor : GoString) (hne : major ≠ [])
    (hmaj : allDigits major) (hmin : allDigits minor) (hlen : minor.length ≤ d)
    (hv : decVal major * 10 ^ d + decVal minor * 10 ^ (d - minor.length) < 2 ^ 63) :
    segmentsToSubunits d major minor
      = (FormatInt ((decVal major * 10 ^ d + decVal minor * 10 ^ (d - minor.length) : Nat) : Int),
          none) := by
  have hpad : (if minor.length < d then minor ++ stringsRepeat '0' (d - minor.length)
      else if minor.length > d then minor.take d else minor)
      = minor ++ List.replicate (d - minor.length) '0' := by
    by_cases h : minor.length < d
    · simp [h, stringsRepeat]
    · have he : d - minor.length = 0 := by omega
      have hg : ¬ (minor.length > d) := by omega
      simp [h, hg, he]
  have hdig : allDigits (major ++ (minor ++ List.replicate (d - minor.length) '0')) := by
    rw [allDigits_append, allDigits_append]
    exact ⟨hmaj, hmin, allDigits_replicate_zero _⟩
  have hval : decVal (major ++ (minor ++ List.replicate (d - minor.length) '0'))
      = decVal major * 10 ^ d + decVal minor * 10 ^ (d - minor.length) := by
    rw [decVal_append, decVal_append, decVal_replicate_zero]
    simp only [List.length_append, List.length_replicate, Nat.add_zero]
    have : minor.length + (d - minor.length) = d := by omega
    rw [this]
  have hnil : major ++ (minor ++ List.replicate (d - minor.length) '0') ≠ [] := by
    simp [hne]
  have hp := ParseInt_digits _ hnil hdig (by rw [hval]; exact hv)
  unfold segmentsToSubunits
  simp only [hpad, hne, if_false, hp, hval]

/-! ## The registry -/

theorem registry_constants (code : GoString) (h : code ∈ registry) :
    ∃ k, GetConversionConstants code = (k, none) ∧ 0 < k.SubunitsPerUnit ∧
      k.SubunitsPerUnit ≤ 10 ^ k.SigDigs ∧ 0 < k.SigDigs ∧ k.SigDigs ≤ 8 := by
  simp only [registry, List.mem_cons, List.mem_singleton, List.not_mem_nil, or_false] at h
  rcases h with rfl | rfl | rfl | rfl | rfl
  · exact ⟨⟨100, 6⟩, by decide, by decide, by decide, by decide, by decide⟩
  · exact ⟨⟨100, 2⟩, by decide, by decide, by decide, by decide, by decide⟩
  · exact ⟨⟨100000000, 8⟩, by decide, by decide, by decide, by decide, by decide⟩
  · exact ⟨⟨100, 2⟩, by decide, by decide, by decide, by decide, by decide⟩
  · exact ⟨⟨100, 2⟩, by decide, by decide, by decide, by decide, by decide⟩

theorem GetConversionConstants_of_not_mem (code : GoString) (h : code ∉ registry) :
    GetConversionConstants code = (CurrencyConstants.zero, some .unexpectedCurrency) := by
  simp only [registry, List.mem_cons, List.mem_singleton, List.not_mem_nil, or_false,
    not_or] at h
  obtain ⟨h1, h2, h3, h4, h5⟩ := h
  unfold GetConversionConstants
  simp only [h1, h2, h3, h4, h5, if_false]

theorem comma_not_digit : isDigit ',' = false := by decide

theorem point_not_digit : isDigit '.' = false := by decide

/-! ## The claims on `ConvertUnitsToSubunits` -/

/-- C2: for a registered currency, a non-empty digit string `major` and a digit string
`minor` of at most `SigDigs` digits whose scaled value
`V = value(major) * 10^SigDigs + value(minor) * 10^(SigDigs - len(minor))` is at most
`2^63 - 1`, `ConvertUnitsToSubunits` succeeds on `major ++ "." ++ minor` with the canonical
decimal numeral of `V` (and on `major` alone with that of `value(major) * 10^SigDigs`). -/
theorem ConvertUnitsToSubunits_scales (code major minor : GoString) (hreg : code ∈ registry)
    (hne : major ≠ []) (hmaj : allDigits major) (hmin : allDigits minor)
    (hlen : minor.length ≤ (GetConversionConstants code).1.SigDigs)
    (hv : decVal major * 10 ^ (GetConversionConstants code).1.SigDigs
      + decVal minor * 10 ^ ((GetConversionConstants code).1.SigDigs - minor.length)
        ≤ 2 ^ 63 - 1) :
    (∃ r, ConvertUnitsToSubunits (major ++ '.' :: minor) code = (r, none) ∧
      canonicalDecimal r (decVal major * 10 ^ (GetConversionConstants code).1.SigDigs
        + decVal minor * 10 ^ ((GetConversionConstants code).1.SigDigs - minor.length))) ∧
    (∃ r, ConvertUnitsToSubunits major code = (r, none) ∧
      canonicalDecimal r (decVal major * 10 ^ (GetConversionConstants code).1.SigDigs)) := by
  obtain ⟨k, hk, -, -, -, -⟩ := registry_constants code hreg
  rw [hk] at hlen hv ⊢
  simp only at hlen hv ⊢
  have hc1 := not_mem_of_allDigits major ',' hmaj comma_not_digit
  have hp1 := not_mem_of_allDigits major '.' hmaj point_not_digit
  have hc2 := not_mem_of_allDigits minor ',' hmin comma_not_digit
  have hp2 := not_mem_of_allDigits minor '.' hmin point_not_digit
  have h63 : (2 : Nat) ^ 63 - 1 < 2 ^ 63 := by norm_num
  have h20 : (2 : Nat) ^ 63 < 10 ^ 20 := by norm_num
  constructor
  · refine ⟨_, ?_, FormatInt_canonical _ (by omega)⟩
    rw [ConvertUnitsToSubunits_point code k hk major minor hc1 hp1 hc2 hp2]
    exact segmentsToSubunits_digits k.SigDigs major minor hne hmaj hmin hlen (by omega)
  · refine ⟨_, ?_, FormatInt_canonical _ (by omega)⟩
    rw [ConvertUnitsToSubunits_noPoint code k hk major hc1 hp1]
    have hz : decVal ([] : GoString) = 0 := rfl
    have := segmentsToSubunits_digits k.SigDigs major [] hne hmaj allDigits_nil
      (Nat.zero_le _) (by rw [hz]; omega)
    rw [hz] at this
    simpa using this

/-- C10: for a registered currency, a digit string `major` (empty or not) and a digit string
`minor` longer than `SigDigs`, `ConvertUnitsToSubunits` returns on `major ++ "." ++ minor`
what it returns on `major ++ "."` followed by the first `SigDigs` bytes of `minor`: the
digits cut off never change the result. -/
theorem ConvertUnitsToSubunits_truncates (code major minor : GoString)
    (hreg : code ∈ registry) (hmaj : allDigits major)
    (hmin : allDigits minor)
    (hlen : (GetConversionConstants code).1.SigDigs < minor.length) :
    ConvertUnitsToSubunits (major ++ '.' :: minor) code
      = ConvertUnitsToSubunits
          (major ++ '.' :: minor.take (GetConversionConstants code).1.SigDigs) code := by
  obtain ⟨k, hk, -, -, -, -⟩ := registry_constants code hreg
  rw [hk] at hlen ⊢
  simp only at hlen ⊢
  have hc1 := not_mem_of_allDigits major ',' hmaj comma_not_digit
  have hp1 := not_mem_of_allDigits major '.' hmaj point_not_digit
  have hc2 := not_mem_of_allDigits minor ',' hmin comma_not_digit
  have hp2 := not_mem_of_allDigits minor '.' hmin point_not_digit
  have hmin2 := allDigits_take minor k.SigDigs hmin
  have hc3 := not_mem_of_allDigits _ ',' hmin2 comma_not_digit
  have hp3 := not_mem_of_allDigits _ '.' hmin2 point_not_digit
  rw [ConvertUnitsToSubunits_point code k hk major minor hc1 hp1 hc2 hp2,
    ConvertUnitsToSubunits_point code k hk major _ hc1 hp1 hc3 hp3]
  have hl : (minor.take k.SigDigs).length = k.SigDigs := by
    rw [List.length_take]; omega
  unfold segmentsToSubunits
  have h1 : ¬ (minor.length < k.SigDigs) := by omega
  simp only [h1, if_false, hlen, gt_iff_lt, if_true, hl, lt_irrefl]

/-- Witness of C2 at the three examples of the claim: `("1.2","USD")` gives `"120"`,
`("1.234","BTC")` gives `"123400000"` and `("0.25","USDC")` gives `"250000"`. -/
theorem ConvertUnitsToSubunits_scales_witness :
    (∃ r, ConvertUnitsToSubunits "1.2".toList "USD".toList = (r, none) ∧
      canonicalDecimal r 120) ∧
    (∃ r, ConvertUnitsToSubunits "1.234".toList "BTC".toList = (r, none) ∧
      canonicalDecimal r 123400000) ∧
    (∃ r, ConvertUnitsToSubunits "0.25".toList "USDC".toList = (r, none) ∧
      canonicalDecimal r 250000) ∧
    ConvertUnitsToSubunits "1.2".toList "USD".toList = ("120".toList, none) ∧
    ConvertUnitsToSubunits "1.234".toList "BTC".toList = ("123400000".toList, none) ∧
    ConvertUnitsToSubunits "0.25".toList "USDC".toList = ("250000".toList, none) :=
  ⟨(ConvertUnitsToSubunits_scales "USD".toList "1".toList "2".toList (by decide) (by decide)
      (by decide) (by decide) (by decide) (by decide)).1,
   (ConvertUnitsToSubunits_scales "BTC".toList "1".toList "234".toList (by decide) (by decide)
      (by decide) (by decide) (by decide) (by decide)).1,
   (ConvertUnitsToSubunits_scales "USDC".toList "0".toList "25".toList (by decide) (by decide)
      (by decide) (by decide) (by decide) (by decide)).1,
   by decide, by decide, by decide⟩

/-- Witness of C10: `"1.239"` and `"1.23"` in USD both give `"123"`. -/
theorem ConvertUnitsToSubunits_truncates_witness :
    ConvertUnitsToSubunits "1.239".toList "USD".toList
      = ConvertUnitsToSubunits "1.23".toList "USD".toList ∧
    ConvertUnitsToSubunits "1.239".toList "USD".toList = ("123".toList, none) ∧
    ConvertUnitsToSubunits "1.23".toList "USD".toList = ("123".toList, none) :=
  ⟨ConvertUnitsToSubunits_truncates "USD".toList "1".toList "239".toList (by decide)
      (by decide) (by decide) (by decide),
   by decide, by decide⟩

/-! ## The claims on `ConvertSubunitsToUnits` -/

theorem constants_of_ok (code : GoString) (k : CurrencyConstants)
    (hk : GetConversionConstants code = (k, none)) :
    code ∈ registry ∧ 0 < k.SubunitsPerUnit ∧ k.SubunitsPerUnit ≤ 10 ^ k.SigDigs ∧
      0 < k.SigDigs ∧ k.SigDigs ≤ 8 := by
  by_cases hreg : code ∈ registry
  · obtain ⟨k2, hk2, h⟩ := registry_constants code hreg
    rw [hk] at hk2
    have : k = k2 := (Prod.mk.inj hk2).1
    subst this
    exact ⟨hreg, h⟩
  · rw [GetConversionConstants_of_not_mem code hreg] at hk
    exact absurd (Prod.mk.inj hk).2 (by decide)

theorem ConvertSubunitsToUnits_natCast (code : GoString) (k : CurrencyConstants)
    (hk : GetConversionConstants code = (k, none)) (m s : Nat)
    (hs : k.SubunitsPerUnit = (s : Int)) :
    ConvertSubunitsToUnits (m : Int) code
      = (formatBits 20 (m / s) ++ '.' ::
          (if m % s = 0 then List.replicate k.SigDigs '0'
           else if (formatBits 20 (m % s)).length < k.SigDigs then
             List.replicate (k.SigDigs - (formatBits 20 (m % s)).length) '0'
               ++ formatBits 20 (m % s)
           else if (formatBits 20 (m % s)).length > k.SigDigs then
             (formatBits 20 (m % s)).take k.SigDigs
           else formatBits 20 (m % s)), none) := by
  have hd : Int.tdiv (m : Int) (s : Int) = ((m / s : Nat) : Int) := by
    rw [Int.tdiv_eq_ediv (by omega) (by omega)]; exact (Int.natCast_div m s).symm
  have hm : Int.tmod (m : Int) (s : Int) = ((m % s : Nat) : Int) := by
    rw [Int.tmod_eq_emod (by omega) (by omega)]; exact (Int.natCast_mod m s).symm
  unfold ConvertSubunitsToUnits
  rw [hk]
  simp only [hs, hd, hm, FormatInt_ofNat, stringsRepeat, Nat.cast_eq_zero]

/-- C3: for a currency the registry accepts with constants `(S, D)` and an `int64` amount
`n ≥ 0`, `ConvertSubunitsToUnits` returns `decimal(n / S) ++ "." ++ F` with `F` the decimal
numeral of `n % S` left-padded with `'0'` to `D` bytes; the numeral of the remainder never
has more than `D` bytes (the truncation branch is not taken), and `F` is exactly `D` decimal
digits. -/
theorem ConvertSubunitsToUnits_nonneg (code : GoString) (k : CurrencyConstants) (n : Int)
    (hk : GetConversionConstants code = (k, none)) (h0 : 0 ≤ n) (h63 : n < 2 ^ 63) :
    ConvertSubunitsToUnits n code
      = (FormatInt (n / k.SubunitsPerUnit) ++ '.' ::
          (List.replicate (k.SigDigs - (FormatInt (n % k.SubunitsPerUnit)).length) '0'
            ++ FormatInt (n % k.SubunitsPerUnit)), none) ∧
    (FormatInt (n % k.SubunitsPerUnit)).length ≤ k.SigDigs ∧
    (List.replicate (k.SigDigs - (FormatInt (n % k.SubunitsPerUnit)).length) '0'
      ++ FormatInt (n % k.SubunitsPerUnit)).length = k.SigDigs ∧
    allDigits (List.replicate (k.SigDigs - (FormatInt (n % k.SubunitsPerUnit)).length) '0'
      ++ FormatInt (n % k.SubunitsPerUnit)) ∧
    canonicalDecimal (FormatInt (n / k.SubunitsPerUnit)) (n / k.SubunitsPerUnit).toNat ∧
    canonicalDecimal (FormatInt (n % k.SubunitsPerUnit)) (n % k.SubunitsPerUnit).toNat := by
  obtain ⟨-, hS0, hSle, hD0, -⟩ := constants_of_ok code k hk
  obtain ⟨m, rfl⟩ := Int.eq_ofNat_of_zero_le h0
  obtain ⟨s, hs⟩ := Int.eq_ofNat_of_zero_le (le_of_lt hS0)
  rw [hs] at hS0 hSle ⊢
  have hs0 : 0 < s := by omega
  have hsle : s ≤ 10 ^ k.SigDigs := by exact_mod_cast hSle
  have hm63 : m < 2 ^ 63 := by exact_mod_cast h63
  have h20 : (2 : Nat) ^ 63 < 10 ^ 20 := by norm_num
  have hq : ((m : Int) / (s : Int)) = ((m / s : Nat) : Int) := (Int.natCast_div m s).symm
  have hr : ((m : Int) % (s : Int)) = ((m % s : Nat) : Int) := (Int.natCast_mod m s).symm
  have hrlt : m % s < s := Nat.mod_lt _ hs0
  have hqle : m / s ≤ m := Nat.div_le_self _ _
  have hrle : m % s ≤ m := Nat.mod_le _ _
  have hlen : (formatBits 20 (m % s)).length ≤ k.SigDigs :=
    formatBits_length_le 20 (m % s) k.SigDigs (by omega) hD0
  rw [hq, hr, FormatInt_ofNat, FormatInt_ofNat, Int.toNat_ofNat, Int.toNat_ofNat]
  refine ⟨?_, hlen, ?_, ?_, ?_, ?_⟩
  · rw [ConvertSubunitsToUnits_natCast code k hk m s hs]
    by_cases hz : m % s = 0
    · have hf : formatBits 20 0 = ['0'] := by decide
      obtain ⟨e, he⟩ : ∃ e, k.SigDigs = e + 1 := ⟨k.SigDigs - 1, by omega⟩
      simp only [hz, if_true, hf, List.length_singleton, he, Nat.add_sub_cancel,
        List.replicate_succ']
    · by_cases hlt : (formatBits 20 (m % s)).length < k.SigDigs
      · simp only [hz, if_false, hlt, if_true]
      · have hgt : ¬ ((formatBits 20 (m % s)).length > k.SigDigs) := by omega
        have he : k.SigDigs - (formatBits 20 (m % s)).length = 0 := by omega
        simp only [hz, if_false, hlt, hgt, he, List.replicate_zero, List.nil_append]
  · rw [List.length_append, List.length_replicate]; omega
  · rw [allDigits_append]
    exact ⟨allDigits_replicate_zero _, (formatBits_spec 20 (m % s) (by omega) (by norm_num)).1⟩
  · exact formatBits_spec 20 (m / s) (by omega) (by norm_num)
  · exact formatBits_spec 20 (m % s) (by omega) (by norm_num)

/-- Witness of C3 at the examples of the claim: `(100000000,"BTC")` gives `"1.00000000"`,
`(506379,"BTC")` gives `"0.00506379"` and `(20000,"USD")` gives `"200.00"`. -/
theorem ConvertSubunitsToUnits_nonneg_witness :
    ConvertSubunitsToUnits 100000000 "BTC".toList = ("1.00000000".toList, none) ∧
    ConvertSubunitsToUnits 506379 "BTC".toList = ("0.00506379".toList, none) ∧
    ConvertSubunitsToUnits 20000 "USD".toList = ("200.00".toList, none) :=
  ⟨(ConvertSubunitsToUnits_nonneg "BTC".toList ⟨100000000, 8⟩ 100000000 rfl
      (by norm_num) (by norm_num)).1,
   (ConvertSubunitsToUnits_nonneg "BTC".toList ⟨100000000, 8⟩ 506379 rfl
      (by norm_num) (by norm_num)).1,
   (ConvertSubunitsToUnits_nonneg "USD".toList ⟨100, 2⟩ 20000 rfl
      (by norm_num) (by norm_num)).1⟩

/-! ## The registry claims -/

/-- C5: `GetConversionConstants` succeeds exactly on the codes `"USDC"`, `"USD"`, `"BTC"`,
`"KES"`, `"MXN"` (bytewise, so case-sensitive); on every other string it returns the
zero-valued `CurrencyConstants` together with the error. -/
theorem GetConversionConstants_ok_iff (code : GoString) :
    ((GetConversionConstants code).2 = none ↔
      code = "USDC".toList ∨ code = "USD".toList ∨ code = "BTC".toList ∨
        code = "KES".toList ∨ code = "MXN".toList) ∧
    ((GetConversionConstants code).2 ≠ none →
      GetConversionConstants code = (⟨0, 0⟩, some GoError.unexpectedCurrency)) := by
  have hmem : code ∈ registry ↔
      (code = "USDC".toList ∨ code = "USD".toList ∨ code = "BTC".toList ∨
        code = "KES".toList ∨ code = "MXN".toList) := by
    simp [registry]
  rw [← hmem]
  by_cases hreg : code ∈ registry
  · obtain ⟨k, hk, -⟩ := registry_constants code hreg
    rw [hk]
    simp [hreg]
  · rw [GetConversionConstants_of_not_mem code hreg]
    simp [hreg, CurrencyConstants.zero]

/-- Witness of C5: `"ZZZ"`, `"usd"` and `""` are rejected with the zero value, `"USD"` is
accepted. -/
theorem GetConversionConstants_ok_iff_witness :
    GetConversionConstants "ZZZ".toList = (⟨0, 0⟩, some GoError.unexpectedCurrency) ∧
    GetConversionConstants "usd".toList = (⟨0, 0⟩, some GoError.unexpectedCurrency) ∧
    GetConversionConstants "".toList = (⟨0, 0⟩, some GoError.unexpectedCurrency) ∧
    (GetConversionConstants "USD".toList).2 = none :=
  ⟨(GetConversionConstants_ok_iff "ZZZ".toList).2 (by decide),
   (GetConversionConstants_ok_iff "usd".toList).2 (by decide),
   (GetConversionConstants_ok_iff "".toList).2 (by decide),
   (GetConversionConstants_ok_iff "USD".toList).1.2 (by decide)⟩

/-- C4 fails at `"USDC"`: the registry accepts the code and returns `SubunitsPerUnit = 100`
with `SigDigs = 6`, and `100 ≠ 10^6`; the other four codes are consistent. -/
theorem GetConversionConstants_USDC_scale :
    GetConversionConstants "USDC".toList = (⟨100, 6⟩, none) ∧
    (⟨100, 6⟩ : CurrencyConstants).SubunitsPerUnit
      ≠ 10 ^ (⟨100, 6⟩ : CurrencyConstants).SigDigs ∧
    (∀ code k, code ∈ registry → code ≠ "USDC".toList →
      GetConversionConstants code = (k, none) → k.SubunitsPerUnit = 10 ^ k.SigDigs) := by
  refine ⟨by decide, by decide, ?_⟩
  intro code k hreg hne hk
  simp only [registry, List.mem_cons, List.mem_singleton, List.not_mem_nil, or_false] at hreg
  rcases hreg with rfl | rfl | rfl | rfl | rfl
  · exact absurd rfl hne
  all_goals
    have h2 := (Prod.mk.inj hk).1
    rw [← h2]
    decide

/-- C1 fails at `(100, "USDC")`: `ConvertSubunitsToUnits` formats 100 subunits with the
scale 100 as `"1.000000"`, and `ConvertUnitsToSubunits` reads that back with six fractional
digits as `"1000000"`, which is not the decimal numeral `"100"` of the amount. -/
theorem roundTrip_USDC :
    ConvertSubunitsToUnits 100 "USDC".toList = ("1.000000".toList, none) ∧
    ConvertUnitsToSubunits "1.000000".toList "USDC".toList = ("1000000".toList, none) ∧
    FormatInt 100 = "100".toList ∧
    ConvertUnitsToSubunits (ConvertSubunitsToUnits 100 "USDC".toList).1 "USDC".toList
      ≠ (FormatInt 100, none) := by
  refine ⟨by decide, by decide, by decide, by decide⟩

/-! ## Lemmas on the conversion of a `float64` to `int64` -/

theorem wrapInt64_range (z : Int) : -(2 ^ 63) ≤ wrapInt64 z ∧ wrapInt64 z < 2 ^ 63 := by
  unfold wrapInt64
  have h1 := Int.emod_nonneg (z + 2 ^ 63) (show (2 : Int) ^ 64 ≠ 0 by norm_num)
  have h2 := Int.emod_lt_of_pos (z + 2 ^ 63) (show (0 : Int) < 2 ^ 64 by norm_num)
  constructor <;> omega

theorem finite_abs_eq_div (m : Nat) (e : Int) :
    (m : ℚ) * (2 : ℚ) ^ e = ((m * 2 ^ e.toNat : Nat) : ℚ) / ((2 ^ (-e).toNat : Nat) : ℚ) := by
  rcases le_total 0 e with h | h
  · obtain ⟨k, rfl⟩ := Int.eq_ofNat_of_zero_le h
    have h1 : (-(k : Int)).toNat = 0 := by omega
    simp [h1, zpow_natCast]
  · obtain ⟨k, hk⟩ := Int.eq_ofNat_of_zero_le (show 0 ≤ -e by omega)
    have he : e = -(k : Int) := by omega
    subst he
    have h1 : (-(k : Int)).toNat = 0 := by omega
    have h2 : (- -(k : Int)).toNat = k := by omega
    rw [h1, h2, zpow_neg, zpow_natCast]
    simp [div_eq_mul_inv]

theorem truncRat_finite (neg : Bool) (m : Nat) (e : Int) :
    truncRat ((if neg then -1 else 1) * ((m : ℚ) * (2 : ℚ) ^ e))
      = if neg then -((m * 2 ^ e.toNat / 2 ^ (-e).toNat : Nat) : Int)
        else ((m * 2 ^ e.toNat / 2 ^ (-e).toNat : Nat) : Int) := by
  rw [finite_abs_eq_div]
  set a : Nat := m * 2 ^ e.toNat with ha
  set b : Nat := 2 ^ (-e).toNat with hb
  have hfl : Int.floor ((a : ℚ) / (b : ℚ)) = ((a / b : Nat) : Int) := by
    have := Rat.floor_intCast_div_natCast (a : Int) b
    rw [Int.cast_natCast] at this
    rw [this, Int.natCast_div]
  have hnn : (0 : ℚ) ≤ (a : ℚ) / (b : ℚ) := by positivity
  cases neg with
  | false =>
    simp only [Bool.false_eq_true, if_false, one_mul]
    unfold truncRat
    rw [if_pos hnn, hfl]
  | true =>
    simp only [if_true, neg_mul, one_mul]
    unfold truncRat
    by_cases h0 : (0 : ℚ) ≤ -((a : ℚ) / (b : ℚ))
    · have hz : (a : ℚ) / (b : ℚ) = 0 := le_antisymm (by linarith) hnn
      rw [if_pos h0]
      rw [hz] at hfl
      rw [hz, ← hfl]
      simp
    · rw [if_neg h0, Int.ceil_neg, hfl]

theorem toInt64_of_value (oor : Float64 → Int) (f : Float64) (v : ℚ)
    (hv : f.value = some v) (hlo : -(2 ^ 63) ≤ truncRat v) (hhi : truncRat v < 2 ^ 63) :
    f.toInt64 oor = truncRat v := by
  cases f with
  | finite neg m e =>
    simp only [Float64.value, Option.some.injEq] at hv
    subst hv
    rw [truncRat_finite] at hlo hhi ⊢
    unfold Float64.toInt64
    cases neg with
    | false =>
      simp only [Bool.false_eq_true, if_false] at hlo hhi ⊢
      rw [if_pos ⟨hlo, hhi⟩]
    | true =>
      simp only [if_true] at hlo hhi ⊢
      rw [if_pos ⟨hlo, hhi⟩]
  | inf neg => simp [Float64.value] at hv
  | nan => simp [Float64.value] at hv

theorem toInt64_range (oor : Float64 → Int) (f : Float64) :
    -(2 ^ 63) ≤ f.toInt64 oor ∧ f.toInt64 oor < 2 ^ 63 := by
  cases f with
  | finite neg m e =>
    unfold Float64.toInt64
    simp only
    by_cases h : -(2 ^ 63) ≤ (if neg = true then
          -((m * 2 ^ e.toNat / 2 ^ (-e).toNat : Nat) : Int)
        else ((m * 2 ^ e.toNat / 2 ^ (-e).toNat : Nat) : Int)) ∧
        (if neg = true then -((m * 2 ^ e.toNat / 2 ^ (-e).toNat : Nat) : Int)
        else ((m * 2 ^ e.toNat / 2 ^ (-e).toNat : Nat) : Int)) < 2 ^ 63
    · rw [if_pos h]; exact h
    · rw [if_neg h]; exact wrapInt64_range _
  | inf neg => exact wrapInt64_range _
  | nan => exact wrapInt64_range _

/-! ## The claims on errors and on the payout functions -/

theorem ConvertSubunitsToUnits_noPartial (n : Int) (code : GoString)
    (h : (ConvertSubunitsToUnits n code).2 ≠ none) : (ConvertSubunitsToUnits n code).1 = [] := by
  obtain ⟨k, oe, hk⟩ : ∃ k oe, GetConversionConstants code = (k, oe) := ⟨_, _, rfl⟩
  unfold ConvertSubunitsToUnits at h ⊢
  rw [hk] at h ⊢
  cases oe with
  | none => exact absurd rfl h
  | some e => rfl

theorem ConvertUnitsToSubunits_noPartial (s code : GoString)
    (h : (ConvertUnitsToSubunits s code).2 ≠ none) : (ConvertUnitsToSubunits s code).1 = [] := by
  obtain ⟨k, oe, hk⟩ : ∃ k oe, GetConversionConstants code = (k, oe) := ⟨_, _, rfl⟩
  unfold ConvertUnitsToSubunits at h ⊢
  rw [hk] at h ⊢
  cases oe with
  | none =>
    simp only at h ⊢
    generalize ParseInt _ = r at h ⊢
    rcases r with ⟨v, _ | e⟩
    · exact absurd rfl h
    · rfl
  | some e => rfl

theorem payinQuoted_noPartial (oor : Float64 → Int) (a b : GoString) (n : Int)
    (price : GoString)
    (h : (CalculatePayoutAmountSubunitsWithPayinCurrencySpotPrice oor a b n price).2 ≠ none) :
    (CalculatePayoutAmountSubunitsWithPayinCurrencySpotPrice oor a b n price).1 = none := by
  obtain ⟨ka, oa, hka⟩ : ∃ k oe, GetConversionConstants a = (k, oe) := ⟨_, _, rfl⟩
  obtain ⟨kb, ob, hkb⟩ : ∃ k oe, GetConversionConstants b = (k, oe) := ⟨_, _, rfl⟩
  unfold CalculatePayoutAmountSubunitsWithPayinCurrencySpotPrice at h ⊢
  rw [hka] at h ⊢
  cases oa with
  | some e => rfl
  | none =>
    simp only at h ⊢
    rw [hkb] at h ⊢
    cases ob with
    | some e => rfl
    | none =>
      simp only at h ⊢
      generalize ParseFloat _ = r at h ⊢
      rcases r with ⟨v, _ | e⟩
      · exact absurd rfl h
      · rfl

theorem payoutQuoted_noPartial (oor : Float64 → Int) (a b : GoString) (n : Int)
    (price : GoString)
    (h : (CalculatePayoutAmountSubunitsWithPayoutCurrencySpotPrice oor a b n price).2 ≠ none) :
    (CalculatePayoutAmountSubunitsWithPayoutCurrencySpotPrice oor a b n price).1 = none := by
  obtain ⟨ka, oa, hka⟩ : ∃ k oe, GetConversionConstants a = (k, oe) := ⟨_, _, rfl⟩
  obtain ⟨kb, ob, hkb⟩ : ∃ k oe, GetConversionConstants b = (k, oe) := ⟨_, _, rfl⟩
  unfold CalculatePayoutAmountSubunitsWithPayoutCurrencySpotPrice at h ⊢
  rw [hka] at h ⊢
  cases oa with
  | some e => rfl
  | none =>
    simp only at h ⊢
    rw [hkb] at h ⊢
    cases ob with
    | some e => rfl
    | none =>
      simp only at h ⊢
      generalize ParseFloat _ = r at h ⊢
      rcases r with ⟨v, _ | e⟩
      · exact absurd rfl h
      · rfl

theorem payinQuoted_unknown (oor : Float64 → Int) (a b : GoString) (n : Int)
    (price : GoString) (h : a ∉ registry ∨ b ∉ registry) :
    CalculatePayoutAmountSubunitsWithPayinCurrencySpotPrice oor a b n price
      = (none, some GoError.unexpectedCurrency) := by
  unfold CalculatePayoutAmountSubunitsWithPayinCurrencySpotPrice
  by_cases ha : a ∈ registry
  · obtain ⟨ka, hka, -⟩ := registry_constants a ha
    have hb : b ∉ registry := h.resolve_left (fun hn => hn ha)
    rw [hka, GetConversionConstants_of_not_mem b hb]
  · rw [GetConversionConstants_of_not_mem a ha]

theorem payoutQuoted_unknown (oor : Float64 → Int) (a b : GoString) (n : Int)
    (price : GoString) (h : a ∉ registry ∨ b ∉ registry) :
    CalculatePayoutAmountSubunitsWithPayoutCurrencySpotPrice oor a b n price
      = (none, some GoError.unexpectedCurrency) := by
  unfold CalculatePayoutAmountSubunitsWithPayoutCurrencySpotPrice
  by_cases ha : a ∈ registry
  · obtain ⟨ka, hka, -⟩ := registry_constants a ha
    have hb : b ∉ registry := h.resolve_left (fun hn => hn ha)
    rw [hka, GetConversionConstants_of_not_mem b hb]
  · rw [GetConversionConstants_of_not_mem a ha]

/-- C6: for a code outside the registry, `ConvertSubunitsToUnits` and
`ConvertUnitsToSubunits` return the empty string with the error, and both payout functions
return `nil` with the error whenever the payin or the payout code is outside the registry,
for every amount and every price string; and no operation, on any input, returns a
non-empty or non-nil result together with an error. -/
theorem unknownCurrency_propagates (oor : Float64 → Int) (code other : GoString) (n : Int)
    (s price : GoString) (h : code ∉ registry) :
    ConvertSubunitsToUnits n code = ([], some GoError.unexpectedCurrency) ∧
    ConvertUnitsToSubunits s code = ([], some GoError.unexpectedCurrency) ∧
    CalculatePayoutAmountSubunitsWithPayinCurrencySpotPrice oor code other n price
      = (none, some GoError.unexpectedCurrency) ∧
    CalculatePayoutAmountSubunitsWithPayinCurrencySpotPrice oor other code n price
      = (none, some GoError.unexpectedCurrency) ∧
    CalculatePayoutAmountSubunitsWithPayoutCurrencySpotPrice oor code other n price
      = (none, some GoError.unexpectedCurrency) ∧
    CalculatePayoutAmountSubunitsWithPayoutCurrencySpotPrice oor other code n price
      = (none, some GoError.unexpectedCurrency) ∧
    (∀ m c, (ConvertSubunitsToUnits m c).2 ≠ none → (ConvertSubunitsToUnits m c).1 = []) ∧
    (∀ t c, (ConvertUnitsToSubunits t c).2 ≠ none → (ConvertUnitsToSubunits t c).1 = []) ∧
    (∀ a b m t,
      (CalculatePayoutAmountSubunitsWithPayinCurrencySpotPrice oor a b m t).2 ≠ none →
      (CalculatePayoutAmountSubunitsWithPayinCurrencySpotPrice oor a b m t).1 = none) ∧
    (∀ a b m t,
      (CalculatePayoutAmountSubunitsWithPayoutCurrencySpotPrice oor a b m t).2 ≠ none →
      (CalculatePayoutAmountSubunitsWithPayoutCurrencySpotPrice oor a b m t).1 = none) := by
  have hk := GetConversionConstants_of_not_mem code h
  refine ⟨?_, ?_, payinQuoted_unknown oor code other n price (Or.inl h),
    payinQuoted_unknown oor other code n price (Or.inr h),
    payoutQuoted_unknown oor code other n price (Or.inl h),
    payoutQuoted_unknown oor other code n price (Or.inr h),
    ConvertSubunitsToUnits_noPartial, ConvertUnitsToSubunits_noPartial,
    payinQuoted_noPartial oor, payoutQuoted_noPartial oor⟩
  · unfold ConvertSubunitsToUnits; rw [hk]
  · unfold ConvertUnitsToSubunits; rw [hk]

/-- Witness of C6 at the code `"ZZZ"`, with the registered code `"USD"` on the other side
and the malformed price `"abc"`. -/
theorem unknownCurrency_propagates_witness :
    ConvertSubunitsToUnits 5 "ZZZ".toList = ([], some GoError.unexpectedCurrency) ∧
    ConvertUnitsToSubunits "1.5".toList "ZZZ".toList = ([], some GoError.unexpectedCurrency) ∧
    CalculatePayoutAmountSubunitsWithPayinCurrencySpotPrice (fun _ => 0) "ZZZ".toList
      "USD".toList 5 "abc".toList = (none, some GoError.unexpectedCurrency) ∧
    CalculatePayoutAmountSubunitsWithPayinCurrencySpotPrice (fun _ => 0) "USD".toList
      "ZZZ".toList 5 "abc".toList = (none, some GoError.unexpectedCurrency) ∧
    CalculatePayoutAmountSubunitsWithPayoutCurrencySpotPrice (fun _ => 0) "ZZZ".toList
      "USD".toList 5 "abc".toList = (none, some GoError.unexpectedCurrency) ∧
    CalculatePayoutAmountSubunitsWithPayoutCurrencySpotPrice (fun _ => 0) "USD".toList
      "ZZZ".toList 5 "abc".toList = (none, some GoError.unexpectedCurrency) :=
  have h := unknownCurrency_propagates (fun _ => 0) "ZZZ".toList "USD".toList 5 "1.5".toList
    "abc".toList (by decide)
  ⟨h.1, h.2.1, h.2.2.1, h.2.2.2.1, h.2.2.2.2.1, h.2.2.2.2.2.1⟩

/-- C7 as stated fails: on `("BTC", "USD", 325291, "30,741.70")` the payin-quoted function
returns 0 whatever the platform, so it does not return 9999. -/
theorem payinQuoted_BTC_USD_not_9999 :
    ¬ ∃ oor : Float64 → Int,
      CalculatePayoutAmountSubunitsWithPayinCurrencySpotPrice oor "BTC".toList "USD".toList
        325291 "30,741.70".toList = (some 9999, none) := by
  rintro ⟨oor, h⟩
  have h0 : CalculatePayoutAmountSubunitsWithPayinCurrencySpotPrice oor "BTC".toList
      "USD".toList 325291 "30,741.70".toList = (some 0, none) := rfl
  rw [h0] at h
  exact absurd h (by decide)

/-- C7 amended: both entry points accept thousands separators; the vector
`("BTC", "USD", 325291, "30,741.70")` with result 9999 belongs to the payout-quoted function
`CalculatePayoutAmountSubunitsWithPayoutCurrencySpotPrice`, the payin-quoted function
returns 325291 on `("USD", "BTC", 10000, "30,741.70")` and 0 on
`("BTC", "USD", 325291, "30,741.70")`. -/
theorem thousandsSeparators_examples (oor : Float64 → Int) :
    CalculatePayoutAmountSubunitsWithPayoutCurrencySpotPrice oor "BTC".toList "USD".toList
      325291 "30,741.70".toList = (some 9999, none) ∧
    CalculatePayoutAmountSubunitsWithPayinCurrencySpotPrice oor "USD".toList "BTC".toList
      10000 "30,741.70".toList = (some 325291, none) ∧
    CalculatePayoutAmountSubunitsWithPayinCurrencySpotPrice oor "BTC".toList "USD".toList
      325291 "30,741.70".toList = (some 0, none) :=
  ⟨rfl, rfl, rfl⟩

/-- C8 as stated fails outside the `int64` range: on `("USD", "BTC", 10^12, "0.000001")`
the `float64` product is `7450580596923828 * 2^27` (about `10^24`), whose truncation toward
zero is that integer, and the function returns an `int64` on every platform, so it does not
return the truncation. -/
theorem payinQuoted_outOfRange :
    ((Float64.ofInt 1000000000000).div
        ((ParseFloat "0.000001".toList).1.mul (Float64.ofInt 100))).mul
      (Float64.ofInt 100000000) = Float64.finite false 7450580596923828 27 ∧
    (Float64.finite false 7450580596923828 27).value
      = some ((7450580596923828 * 2 ^ 27 : Nat) : ℚ) ∧
    truncRat ((7450580596923828 * 2 ^ 27 : Nat) : ℚ) = 7450580596923828 * 2 ^ 27 ∧
    ¬ ∃ oor : Float64 → Int,
      CalculatePayoutAmountSubunitsWithPayinCurrencySpotPrice oor "USD".toList "BTC".toList
        1000000000000 "0.000001".toList = (some (7450580596923828 * 2 ^ 27), none) := by
  refine ⟨rfl, ?_, ?_, ?_⟩
  · simp only [Float64.value, Bool.false_eq_true, if_false, one_mul]
    norm_num
  · unfold truncRat
    rw [if_pos (by positivity), Int.floor_natCast]
    norm_num
  · rintro ⟨oor, h⟩
    have h0 : CalculatePayoutAmountSubunitsWithPayinCurrencySpotPrice oor "USD".toList
        "BTC".toList 1000000000000 "0.000001".toList
        = (some (wrapInt64 (oor (Float64.finite false 7450580596923828 27))), none) := rfl
    rw [h0] at h
    have h1 := (wrapInt64_range (oor (Float64.finite false 7450580596923828 27))).2
    have h2 : wrapInt64 (oor (Float64.finite false 7450580596923828 27))
        = 7450580596923828 * 2 ^ 27 := Option.some.inj (Prod.mk.inj h).1
    rw [h2] at h1
    exact absurd h1 (by norm_num)

/-- C8 amended: for payin and payout codes the registry accepts, with scales `S_in` and
`S_out`, an amount `n` and a price string that parses, after comma removal, to `p`: when
the `float64` product `(n / (p * S_in)) * S_out`, evaluated in that order, is finite with value `v` and the
truncation of `v` toward zero is an `int64`, the function returns that truncation. -/
theorem payinQuoted_truncates (oor : Float64 → Int) (payin payout price : GoString)
    (kin kout : CurrencyConstants) (n : Int) (p : Float64) (v : ℚ)
    (hin : GetConversionConstants payin = (kin, none))
    (hout : GetConversionConstants payout = (kout, none))
    (hp : ParseFloat (stringsReplaceAll price ',' []) = (p, none))
    (hv : (((Float64.ofInt n).div (p.mul (Float64.ofInt kin.SubunitsPerUnit))).mul
      (Float64.ofInt kout.SubunitsPerUnit)).value = some v)
    (hlo : -(2 ^ 63) ≤ truncRat v) (hhi : truncRat v < 2 ^ 63) :
    CalculatePayoutAmountSubunitsWithPayinCurrencySpotPrice oor payin payout n price
      = (some (truncRat v), none) := by
  unfold CalculatePayoutAmountSubunitsWithPayinCurrencySpotPrice
  rw [hin, hout]
  simp only [hp]
  rw [toInt64_of_value oor _ v hv hlo hhi]

/-- Witness of C8 at the example of the claim: `("BTC", "KES", 2500, "0.000000219258381")` returns 11402, the
truncation of the product `6268355756581091 * 2^(-39)`. -/
theorem payinQuoted_truncates_witness :
    CalculatePayoutAmountSubunitsWithPayinCurrencySpotPrice (fun _ => 0) "BTC".toList "KES".toList
      2500 "0.000000219258381".toList
      = (some (truncRat ((if false then -1 else 1) * ((6268355756581091 : Nat) * (2 : ℚ) ^ (-39 : Int)))),
          none) ∧
    truncRat ((if false then -1 else 1) * ((6268355756581091 : Nat) * (2 : ℚ) ^ (-39 : Int))) = 11402 :=
  ⟨payinQuoted_truncates (fun _ => 0) _ _ _ _ _ _ _ _ rfl rfl rfl rfl
      (by rw [truncRat_finite]; decide) (by rw [truncRat_finite]; decide),
   by rw [truncRat_finite]; decide⟩

/-- C9 as stated fails outside the `int64` range: on `("USD", "BTC", 10^12, "1000000")`
the `float64` product is `7450580596923828 * 2^27` (about `10^24`), whose truncation toward
zero is that integer, and the function returns an `int64` on every platform, so it does not
return the truncation. -/
theorem payoutQuoted_outOfRange :
    ((Float64.ofInt 1000000000000).div
        ((Float64.ofInt 100).div (ParseFloat "1000000".toList).1)).mul
      (Float64.ofInt 100000000) = Float64.finite false 7450580596923828 27 ∧
    (Float64.finite false 7450580596923828 27).value
      = some ((7450580596923828 * 2 ^ 27 : Nat) : ℚ) ∧
    truncRat ((7450580596923828 * 2 ^ 27 : Nat) : ℚ) = 7450580596923828 * 2 ^ 27 ∧
    ¬ ∃ oor : Float64 → Int,
      CalculatePayoutAmountSubunitsWithPayoutCurrencySpotPrice oor "USD".toList "BTC".toList
        1000000000000 "1000000".toList = (some (7450580596923828 * 2 ^ 27), none) := by
  refine ⟨rfl, ?_, ?_, ?_⟩
  · simp only [Float64.value, Bool.false_eq_true, if_false, one_mul]
    norm_num
  · unfold truncRat
    rw [if_pos (by positivity), Int.floor_natCast]
    norm_num
  · rintro ⟨oor, h⟩
    have h0 : CalculatePayoutAmountSubunitsWithPayoutCurrencySpotPrice oor "USD".toList
        "BTC".toList 1000000000000 "1000000".toList
        = (some (wrapInt64 (oor (Float64.finite false 7450580596923828 27))), none) := rfl
    rw [h0] at h
    have h1 := (wrapInt64_range (oor (Float64.finite false 7450580596923828 27))).2
    have h2 : wrapInt64 (oor (Float64.finite false 7450580596923828 27))
        = 7450580596923828 * 2 ^ 27 := Option.some.inj (Prod.mk.inj h).1
    rw [h2] at h1
    exact absurd h1 (by norm_num)

/-- C9 amended: for payin and payout codes the registry accepts, with scales `S_in` and
`S_out`, an amount `n` and a price string that parses, after comma removal, to `p`: when
the `float64` product `(n / (S_in / q)) * S_out`, evaluated in that order, is finite with value `v` and the
truncation of `v` toward zero is an `int64`, the function returns that truncation. -/
theorem payoutQuoted_truncates (oor : Float64 → Int) (payin payout price : GoString)
    (kin kout : CurrencyConstants) (n : Int) (p : Float64) (v : ℚ)
    (hin : GetConversionConstants payin = (kin, none))
    (hout : GetConversionConstants payout = (kout, none))
    (hp : ParseFloat (stringsReplaceAll price ',' []) = (p, none))
    (hv : (((Float64.ofInt n).div ((Float64.ofInt kin.SubunitsPerUnit).div p)).mul
      (Float64.ofInt kout.SubunitsPerUnit)).value = some v)
    (hlo : -(2 ^ 63) ≤ truncRat v) (hhi : truncRat v < 2 ^ 63) :
    CalculatePayoutAmountSubunitsWithPayoutCurrencySpotPrice oor payin payout n price
      = (some (truncRat v), none) := by
  unfold CalculatePayoutAmountSubunitsWithPayoutCurrencySpotPrice
  rw [hin, hout]
  simp only [hp]
  rw [toInt64_of_value oor _ v hv hlo hhi]

/-- Witness of C9 at the example of the claim: `("USD", "BTC", 10000, "0.0000325291")` returns 325291, the
truncation of the product `5588456826732544 * 2^(-34)`. -/
theorem payoutQuoted_truncates_witness :
    CalculatePayoutAmountSubunitsWithPayoutCurrencySpotPrice (fun _ => 0) "USD".toList "BTC".toList
      10000 "0.0000325291".toList
      = (some (truncRat ((if false then -1 else 1) * ((5588456826732544 : Nat) * (2 : ℚ) ^ (-34 : Int)))),
          none) ∧
    truncRat ((if false then -1 else 1) * ((5588456826732544 : Nat) * (2 : ℚ) ^ (-34 : Int))) = 325291 :=
  ⟨payoutQuoted_truncates (fun _ => 0) _ _ _ _ _ _ _ _ rfl rfl rfl rfl
      (by rw [truncRat_finite]; decide) (by rw [truncRat_finite]; decide),
   by rw [truncRat_finite]; decide⟩

/-! ## Commas and the empty major segment -/

theorem stringsReplaceAll_eq_filter (s : GoString) (old : Char) :
    stringsReplaceAll s old [] = s.filter (fun c => c ≠ old) := by
  induction s with
  | nil => rfl
  | cons c cs ih =>
    unfold stringsReplaceAll at ih ⊢
    by_cases h : c = old
    · simp only [List.flatMap_cons, h, if_true, List.nil_append, ih]
      simp
    · simp only [List.flatMap_cons, h, if_false, List.singleton_append, ih]
      simp [h]

theorem stringsReplaceAll_idem (s : GoString) (old : Char) :
    stringsReplaceAll (stringsReplaceAll s old []) old [] = stringsReplaceAll s old [] := by
  rw [stringsReplaceAll_eq_filter, stringsReplaceAll_eq_filter, List.filter_filter]
  simp

/-- C14: for both payout functions and every payin code, payout code, amount and price
string `p`, the outcome (result and error) on `p` is the outcome on `p` with every `','`
removed; in particular `"30,741.70"` and `"30741.70"` give the same payout. -/
theorem payout_commas_ignored (oor : Float64 → Int) (a b p : GoString) (n : Int) :
    CalculatePayoutAmountSubunitsWithPayinCurrencySpotPrice oor a b n p
      = CalculatePayoutAmountSubunitsWithPayinCurrencySpotPrice oor a b n
          (p.filter (fun c => c ≠ ',')) ∧
    CalculatePayoutAmountSubunitsWithPayoutCurrencySpotPrice oor a b n p
      = CalculatePayoutAmountSubunitsWithPayoutCurrencySpotPrice oor a b n
          (p.filter (fun c => c ≠ ',')) ∧
    CalculatePayoutAmountSubunitsWithPayinCurrencySpotPrice oor a b n "30,741.70".toList
      = CalculatePayoutAmountSubunitsWithPayinCurrencySpotPrice oor a b n "30741.70".toList ∧
    CalculatePayoutAmountSubunitsWithPayoutCurrencySpotPrice oor a b n "30,741.70".toList
      = CalculatePayoutAmountSubunitsWithPayoutCurrencySpotPrice oor a b n
          "30741.70".toList := by
  have hidem := stringsReplaceAll_idem p ','
  rw [← stringsReplaceAll_eq_filter]
  have h1 : stringsReplaceAll "30,741.70".toList ',' []
      = stringsReplaceAll "30741.70".toList ',' [] := by decide
  unfold CalculatePayoutAmountSubunitsWithPayinCurrencySpotPrice
    CalculatePayoutAmountSubunitsWithPayoutCurrencySpotPrice
  simp only [hidem, h1, and_self]

/-- C15: for every currency code and every amount string `s`, `ConvertUnitsToSubunits` has
on `s` the outcome (result and error) it has on `s` with every `','` removed; `"1,000.50"`
in USD gives `"100050"`. -/
theorem ConvertUnitsToSubunits_commas_ignored (s code : GoString) :
    ConvertUnitsToSubunits s code
      = ConvertUnitsToSubunits (s.filter (fun c => c ≠ ',')) code ∧
    ConvertUnitsToSubunits "1,000.50".toList "USD".toList = ("100050".toList, none) := by
  refine ⟨?_, by decide⟩
  have hidem := stringsReplaceAll_idem s ','
  rw [← stringsReplaceAll_eq_filter]
  unfold ConvertUnitsToSubunits
  simp only [hidem]

theorem stringsReplaceAll_cons_of_ne (c old : Char) (s new : GoString) (h : c ≠ old) :
    stringsReplaceAll (c :: s) old new = c :: stringsReplaceAll s old new := by
  unfold stringsReplaceAll
  simp [h]

/-- C16: for every currency code and every string `m` (also one with points or commas),
`ConvertUnitsToSubunits` has on `"." ++ m` the outcome it has on `"0." ++ m`: an empty major
segment is read as `"0"`; `".0050637"` and `"0.0050637"` in BTC both give `"506370"`. -/
theorem ConvertUnitsToSubunits_emptyMajor (m code : GoString) :
    ConvertUnitsToSubunits ('.' :: m) code = ConvertUnitsToSubunits ('0' :: '.' :: m) code ∧
    ConvertUnitsToSubunits ".0050637".toList "BTC".toList = ("506370".toList, none) ∧
    ConvertUnitsToSubunits "0.0050637".toList "BTC".toList = ("506370".toList, none) := by
  refine ⟨?_, by decide, by decide⟩
  have h1 : stringsReplaceAll ('.' :: m) ',' [] = '.' :: stringsReplaceAll m ',' [] :=
    stringsReplaceAll_cons_of_ne _ _ _ _ (by decide)
  have h2 : stringsReplaceAll ('0' :: '.' :: m) ',' []
      = '0' :: '.' :: stringsReplaceAll m ',' [] := by
    rw [stringsReplaceAll_cons_of_ne _ _ _ _ (by decide),
      stringsReplaceAll_cons_of_ne _ _ _ _ (by decide)]
  have h3 : stringsSplit ('.' :: stringsReplaceAll m ',' []) '.'
      = [] :: stringsSplit (stringsReplaceAll m ',' []) '.' := by
    rw [stringsSplit]; simp
  have h4 : stringsSplit ('0' :: '.' :: stringsReplaceAll m ',' []) '.'
      = ['0'] :: stringsSplit (stringsReplaceAll m ',' []) '.' := by
    rw [stringsSplit, h3]; simp
  unfold ConvertUnitsToSubunits
  simp only [h1, h2, h3, h4]
  simp

/-- C17: for every currency code on which `GetConversionConstants` succeeds, the returned
`SubunitsPerUnit` and `SigDigs` are positive, so the divisor of the division and of the
remainder in `ConvertSubunitsToUnits` is never zero. -/
theorem GetConversionConstants_positive (code : GoString) (k : CurrencyConstants)
    (hk : GetConversionConstants code = (k, none)) :
    0 < k.SubunitsPerUnit ∧ 0 < k.SigDigs ∧ k.SubunitsPerUnit ≠ 0 := by
  obtain ⟨-, h1, -, h2, -⟩ := constants_of_ok code k hk
  exact ⟨h1, h2, ne_of_gt h1⟩

/-- Witness of C17 at `"USDC"`, whose constants are 100 and 6. -/
theorem GetConversionConstants_positive_witness :
    GetConversionConstants "USDC".toList = (⟨100, 6⟩, none) ∧
    (0 : Int) < (⟨100, 6⟩ : CurrencyConstants).SubunitsPerUnit ∧
    0 < (⟨100, 6⟩ : CurrencyConstants).SigDigs ∧
    (⟨100, 6⟩ : CurrencyConstants).SubunitsPerUnit ≠ 0 :=
  ⟨rfl, GetConversionConstants_positive "USDC".toList ⟨100, 6⟩ rfl⟩

/-! ## `ParseInt` on malformed and on large numerals -/

theorem parseUintLoop_not_digits (s : GoString) (n : Nat) (h : ¬ allDigits s) :
    (parseUintLoop s n).2 ≠ none := by
  induction s generalizing n with
  | nil => exact absurd allDigits_nil h
  | cons c cs ih =>
    unfold parseUintLoop
    by_cases hc : isDigit c = true
    · have hcs : ¬ allDigits cs := fun hcs => h ((allDigits_cons c cs).2 ⟨hc, hcs⟩)
      simp only [hc, if_true]
      split_ifs
      · simp
      · simp
      · exact ih _ hcs
    · simp [hc]

theorem parseUintLoop_overflow (s : GoString) (n : Nat) (hs : allDigits s) (hn : n < 2 ^ 64)
    (hv : 2 ^ 64 ≤ n * 10 ^ s.length + decVal s) :
    parseUintLoop s n = (2 ^ 64 - 1, some GoError.numRangeErr) := by
  induction s generalizing n with
  | nil =>
    simp [decVal, decValFrom] at hv
    omega
  | cons c cs ih =>
    rw [allDigits_cons] at hs
    have hval : n * 10 ^ (c :: cs).length + decVal (c :: cs)
        = (n * 10 + digitVal c) * 10 ^ cs.length + decVal cs := by
      rw [decVal_cons, List.length_cons, pow_succ]; ring
    rw [hval] at hv
    unfold parseUintLoop
    simp only [hs.1, if_true]
    split_ifs with h1 h2
    · rfl
    · rfl
    · exact ih _ hs.2 (by norm_num at h2 ⊢; omega) hv

theorem parseUintLoop_cases (s : GoString) (n : Nat) :
    (parseUintLoop s n).2 = none ∨ parseUintLoop s n = (0, some GoError.numSyntaxErr) ∨
      parseUintLoop s n = (2 ^ 64 - 1, some GoError.numRangeErr) := by
  induction s generalizing n with
  | nil => left; rfl
  | cons c cs ih =>
    unfold parseUintLoop
    by_cases hc : isDigit c = true
    · simp only [hc, if_true]
      by_cases h1 : n ≥ (2 ^ 64 - 1) / 10 + 1
      · rw [if_pos h1]; right; right; rfl
      · rw [if_neg h1]
        by_cases h2 : n * 10 + digitVal c > 2 ^ 64 - 1
        · simp only [h2, if_true]; right; right; trivial
        · simp only [h2, if_false]; exact ih _
    · simp only [hc]
      right; left; rfl

theorem ParseUint_cases (s : GoString) :
    (ParseUint s).2 = none ∨ ParseUint s = (0, some GoError.numSyntaxErr) ∨
      ParseUint s = (2 ^ 64 - 1, some GoError.numRangeErr) := by
  cases s with
  | nil => right; left; rfl
  | cons c cs => exact parseUintLoop_cases (c :: cs) 0

theorem ParseUint_not_digits (s : GoString) (h : s = [] ∨ ¬ allDigits s) :
    (ParseUint s).2 ≠ none := by
  cases s with
  | nil => simp [ParseUint]
  | cons c cs =>
    rcases h with h | h
    · exact absurd h (by simp)
    · exact parseUintLoop_not_digits (c :: cs) 0 h

theorem ParseInt_of_ParseUint_error (c : Char) (cs : GoString)
    (h : (ParseUint (if c = '+' ∨ c = '-' then cs else c :: cs)).2 ≠ none) :
    (ParseInt (c :: cs)).2 ≠ none := by
  unfold ParseInt
  rcases ParseUint_cases (if c = '+' ∨ c = '-' then cs else c :: cs) with h1 | h1 | h1
  · exact absurd h1 h
  · simp only [h1]
    simp
  · simp only [h1]
    by_cases hneg : c = '-'
    · simp [hneg]
    · simp [hneg]

theorem ParseInt_not_literal (t : GoString) (h : ¬ isIntLiteral t) :
    (ParseInt t).2 ≠ none := by
  cases t with
  | nil => simp [ParseInt]
  | cons c cs =>
    apply ParseInt_of_ParseUint_error
    apply ParseUint_not_digits
    unfold isIntLiteral at h
    by_cases hs : c = '+' ∨ c = '-'
    · simp only [hs, if_true] at h ⊢
      by_cases hnil : cs = []
      · exact Or.inl hnil
      · exact Or.inr (fun hd => h ⟨hnil, hd⟩)
    · simp only [hs, if_false] at h ⊢
      exact Or.inr h

theorem ParseInt_digits_range (s : GoString) (hs : allDigits s) (hne : s ≠ [])
    (hv : 2 ^ 63 ≤ decVal s) : ParseInt s = (2 ^ 63 - 1, some GoError.numRangeErr) := by
  cases s with
  | nil => exact absurd rfl hne
  | cons c cs =>
    have hc : isDigit c = true := ((allDigits_cons c cs).1 hs).1
    have hplus : c ≠ '+' := fun h => by rw [h] at hc; exact absurd hc (by decide)
    have hminus : c ≠ '-' := fun h => by rw [h] at hc; exact absurd hc (by decide)
    unfold ParseInt
    simp only [hplus, hminus, or_self, if_false]
    by_cases hbig : 2 ^ 64 ≤ decVal (c :: cs)
    · have hloop := parseUintLoop_overflow (c :: cs) 0 hs (by norm_num) (by simpa using hbig)
      have hpu : ParseUint (c :: cs) = (2 ^ 64 - 1, some GoError.numRangeErr) := hloop
      rw [hpu]
      simp
    · have hloop := parseUintLoop_digits (c :: cs) 0 hs (by
        simp only [Nat.zero_mul, Nat.zero_add]; omega)
      simp only [Nat.zero_mul, Nat.zero_add] at hloop
      have hpu : ParseUint (c :: cs) = (decVal (c :: cs), none) := hloop
      rw [hpu]
      have h63 : (9223372036854775808 : Nat) ≤ decVal (c :: cs) := by
        norm_num at hv; exact hv
      simp [h63]

/-! ## The text `ConvertUnitsToSubunits` parses -/

theorem padCut_eq (m : GoString) (d : Nat) :
    (if m.length < d then m ++ stringsRepeat '0' (d - m.length)
      else if m.length > d then m.take d else m)
      = m.take d ++ List.replicate (d - m.length) '0' := by
  by_cases h1 : m.length < d
  · rw [if_pos h1, List.take_of_length_le (le_of_lt h1)]
    rfl
  · rw [if_neg h1]
    have h0 : d - m.length = 0 := by omega
    by_cases h2 : m.length > d
    · rw [if_pos h2, h0]; simp
    · rw [if_neg h2, h0, List.take_of_length_le (by omega)]; simp

theorem minorSegment_eq (parts : List GoString) :
    (if parts.length > 1 then parts.getD 1 [] else []) = (parts.drop 1).headD [] := by
  cases parts with
  | nil => rfl
  | cons a rest =>
    cases rest with
    | nil => rfl
    | cons b rest2 => simp

theorem ConvertUnitsToSubunits_eq_parsedText (s code : GoString) (k : CurrencyConstants)
    (hk : GetConversionConstants code = (k, none)) :
    ConvertUnitsToSubunits s code
      = match ParseInt (parsedText k.SigDigs s) with
        | (_, some err) => ([], some err)
        | (subunits, none) => (FormatInt subunits, none) := by
  unfold ConvertUnitsToSubunits parsedText
  rw [hk]
  simp only [padCut_eq, minorSegment_eq, stringsReplaceAll_eq_filter]

theorem segmentsToSubunits_eq (d : Nat) (major minor : GoString) :
    segmentsToSubunits d major minor
      = match ParseInt ((if major = [] then ['0'] else major)
            ++ (minor.take d ++ List.replicate (d - minor.length) '0')) with
        | (_, some err) => ([], some err)
        | (subunits, none) => (FormatInt subunits, none) := by
  unfold segmentsToSubunits
  simp only [padCut_eq]

/-- C11 as stated fails: `"1.2.3"` and `"1.23abc"` are not of the shape
`[sign] digits ["." digits]`, and `ConvertUnitsToSubunits` accepts them in USD, returning
`"120"` and `"123"`. -/
theorem ConvertUnitsToSubunits_accepts_malformed :
    isDecimalNumber ("1.2.3".toList.filter (fun c => c ≠ ',')) = false ∧
    ConvertUnitsToSubunits "1.2.3".toList "USD".toList = ("120".toList, none) ∧
    isDecimalNumber ("1.23abc".toList.filter (fun c => c ≠ ',')) = false ∧
    ConvertUnitsToSubunits "1.23abc".toList "USD".toList = ("123".toList, none) := by
  refine ⟨by decide, by decide, by decide, by decide⟩

/-- C11 amended: for a currency the registry accepts, `ConvertUnitsToSubunits` returns the
empty string and an error for every amount whose parsed text (commas stripped, the major
segment or `"0"`, then the minor segment cut or zero-padded to `SigDigs` bytes) is not of
the shape `[sign] digits`; what follows a second point and the bytes of the minor segment
past `SigDigs` are not examined. -/
theorem ConvertUnitsToSubunits_malformed (s code : GoString) (k : CurrencyConstants)
    (hk : GetConversionConstants code = (k, none))
    (h : ¬ isIntLiteral (parsedText k.SigDigs s)) :
    (ConvertUnitsToSubunits s code).1 = [] ∧ (ConvertUnitsToSubunits s code).2 ≠ none := by
  have hp := ParseInt_not_literal _ h
  rw [ConvertUnitsToSubunits_eq_parsedText s code k hk]
  generalize ParseInt (parsedText k.SigDigs s) = r at hp ⊢
  rcases r with ⟨v, _ | e⟩
  · exact absurd rfl hp
  · exact ⟨rfl, by simp⟩

/-- Witness of C11 amended: `"abc"`, `"1.x"` and `"1x.23"` in USD are rejected with a
syntax error. -/
theorem ConvertUnitsToSubunits_malformed_witness :
    ConvertUnitsToSubunits "abc".toList "USD".toList = ([], some GoError.numSyntaxErr) ∧
    ConvertUnitsToSubunits "1.x".toList "USD".toList = ([], some GoError.numSyntaxErr) ∧
    ConvertUnitsToSubunits "1x.23".toList "USD".toList = ([], some GoError.numSyntaxErr) ∧
    (ConvertUnitsToSubunits "abc".toList "USD".toList).1 = [] ∧
    (ConvertUnitsToSubunits "abc".toList "USD".toList).2 ≠ none :=
  ⟨by decide, by decide, by decide,
   ConvertUnitsToSubunits_malformed "abc".toList "USD".toList ⟨100, 2⟩ rfl (by decide)⟩

theorem padded_minor_spec (d : Nat) (minor : GoString) (hmin : allDigits minor) :
    (minor.take d ++ List.replicate (d - minor.length) '0').length = d ∧
    allDigits (minor.take d ++ List.replicate (d - minor.length) '0') := by
  constructor
  · rw [List.length_append, List.length_take, List.length_replicate]; omega
  · rw [allDigits_append]
    exact ⟨allDigits_take minor d hmin, allDigits_replicate_zero _⟩

theorem segmentsToSubunits_digits_any (d : Nat) (major minor : GoString) (hne : major ≠ [])
    (hmaj : allDigits major) (hmin : allDigits minor) :
    (decVal major * 10 ^ d
        + decVal (minor.take d ++ List.replicate (d - minor.length) '0') < 2 ^ 63 →
      segmentsToSubunits d major minor
        = (FormatInt ((decVal major * 10 ^ d
            + decVal (minor.take d ++ List.replicate (d - minor.length) '0') : Nat) : Int),
            none)) ∧
    (2 ^ 63 ≤ decVal major * 10 ^ d
        + decVal (minor.take d ++ List.replicate (d - minor.length) '0') →
      segmentsToSubunits d major minor = ([], some GoError.numRangeErr)) := by
  obtain ⟨hlen, hdig⟩ := padded_minor_spec d minor hmin
  have hall : allDigits (major ++ (minor.take d ++ List.replicate (d - minor.length) '0')) :=
    (allDigits_append _ _).2 ⟨hmaj, hdig⟩
  have hval : decVal (major ++ (minor.take d ++ List.replicate (d - minor.length) '0'))
      = decVal major * 10 ^ d
        + decVal (minor.take d ++ List.replicate (d - minor.length) '0') := by
    rw [decVal_append, hlen]
  have hnil : major ++ (minor.take d ++ List.replicate (d - minor.length) '0') ≠ [] := by
    simp [hne]
  rw [segmentsToSubunits_eq]
  simp only [hne, if_false]
  constructor
  · intro hv
    rw [ParseInt_digits _ hnil hall (by rw [hval]; exact hv), hval]
  · intro hv
    rw [ParseInt_digits_range _ hall hnil (by rw [hval]; exact hv)]

/-- C12 as stated fails: `"100000000000"` in BTC denotes `10^19` subunits, more than
`2^63 - 1`, and `ConvertUnitsToSubunits` returns the empty string with a range error. -/
theorem ConvertUnitsToSubunits_BTC_overflow :
    ConvertUnitsToSubunits "100000000000".toList "BTC".toList
      = ([], some GoError.numRangeErr) ∧
    decVal "100000000000".toList * 10 ^ 8 = 10 ^ 19 ∧ 2 ^ 63 - 1 < 10 ^ 19 := by
  refine ⟨by decide, by decide, by norm_num⟩

/-- C12 amended: for a currency the registry accepts, a non-empty digit string `major` and a
digit string `minor` of any length, with `V` the scaled value (`value(major) * 10^SigDigs`
plus the value of `minor` cut or zero-padded to `SigDigs` digits): when `V ≤ 2^63 - 1`
`ConvertUnitsToSubunits` returns the canonical decimal numeral of `V`, and when
`V > 2^63 - 1` it returns the empty string with a range error, on `major ++ "." ++ minor`
and (for an empty `minor`) on `major` alone. -/
theorem ConvertUnitsToSubunits_int64_only (code major minor : GoString)
    (k : CurrencyConstants) (hk : GetConversionConstants code = (k, none))
    (hne : major ≠ []) (hmaj : allDigits major) (hmin : allDigits minor) :
    (decVal major * 10 ^ k.SigDigs
        + decVal (minor.take k.SigDigs ++ List.replicate (k.SigDigs - minor.length) '0')
          ≤ 2 ^ 63 - 1 →
      ConvertUnitsToSubunits (major ++ '.' :: minor) code
        = (FormatInt ((decVal major * 10 ^ k.SigDigs
            + decVal (minor.take k.SigDigs ++ List.replicate (k.SigDigs - minor.length) '0')
              : Nat) : Int), none) ∧
      canonicalDecimal
        (FormatInt ((decVal major * 10 ^ k.SigDigs
            + decVal (minor.take k.SigDigs ++ List.replicate (k.SigDigs - minor.length) '0')
              : Nat) : Int))
        (decVal major * 10 ^ k.SigDigs
            + decVal (minor.take k.SigDigs ++ List.replicate (k.SigDigs - minor.length) '0'))) ∧
    (2 ^ 63 - 1 < decVal major * 10 ^ k.SigDigs
        + decVal (minor.take k.SigDigs ++ List.replicate (k.SigDigs - minor.length) '0') →
      ConvertUnitsToSubunits (major ++ '.' :: minor) code = ([], some GoError.numRangeErr)) ∧
    (2 ^ 63 - 1 < decVal major * 10 ^ k.SigDigs →
      ConvertUnitsToSubunits major code = ([], some GoError.numRangeErr)) := by
  have hc1 := not_mem_of_allDigits major ',' hmaj comma_not_digit
  have hp1 := not_mem_of_allDigits major '.' hmaj point_not_digit
  have hc2 := not_mem_of_allDigits minor ',' hmin comma_not_digit
  have hp2 := not_mem_of_allDigits minor '.' hmin point_not_digit
  have h63 : (2 : Nat) ^ 63 - 1 < 2 ^ 63 := by norm_num
  have h20 : (2 : Nat) ^ 63 < 10 ^ 20 := by norm_num
  obtain ⟨hlo, hhi⟩ := segmentsToSubunits_digits_any k.SigDigs major minor hne hmaj hmin
  refine ⟨fun hv => ⟨?_, FormatInt_canonical _ (by omega)⟩, fun hv => ?_, fun hv => ?_⟩
  · rw [ConvertUnitsToSubunits_point code k hk major minor hc1 hp1 hc2 hp2]
    exact hlo (by omega)
  · rw [ConvertUnitsToSubunits_point code k hk major minor hc1 hp1 hc2 hp2]
    exact hhi (by omega)
  · rw [ConvertUnitsToSubunits_noPoint code k hk major hc1 hp1]
    have hz : decVal (List.replicate k.SigDigs '0') = 0 := decVal_replicate_zero _
    have := (segmentsToSubunits_digits_any k.SigDigs major [] hne hmaj allDigits_nil).2
    simp only [List.take_nil, List.nil_append, List.length_nil, Nat.sub_zero, hz,
      Nat.add_zero] at this
    exact this (by omega)

/-- Witness of C12 amended: `"92233720368.54775807"` in BTC is `2^63 - 1` subunits and is
returned in full, `"92233720368.54775808"` and `"100000000000"` are one more and `10^19` and
give a range error. -/
theorem ConvertUnitsToSubunits_int64_only_witness :
    ConvertUnitsToSubunits "92233720368.54775807".toList "BTC".toList
      = ("9223372036854775807".toList, none) ∧
    ConvertUnitsToSubunits "92233720368.54775808".toList "BTC".toList
      = ([], some GoError.numRangeErr) ∧
    ConvertUnitsToSubunits "100000000000".toList "BTC".toList
      = ([], some GoError.numRangeErr) :=
  ⟨((ConvertUnitsToSubunits_int64_only "BTC".toList "92233720368".toList "54775807".toList
      ⟨100000000, 8⟩ rfl (by decide) (by decide) (by decide)).1 (by decide)).1,
   (ConvertUnitsToSubunits_int64_only "BTC".toList "92233720368".toList "54775808".toList
      ⟨100000000, 8⟩ rfl (by decide) (by decide) (by decide)).2.1 (by decide),
   (ConvertUnitsToSubunits_int64_only "BTC".toList "100000000000".toList []
      ⟨100000000, 8⟩ rfl (by decide) (by decide) (by decide)).2.2 (by decide)⟩

/-! ## The range of the payout results -/

theorem payinQuoted_range (oor : Float64 → Int) (a b p : GoString) (n r : Int)
    (h : (CalculatePayoutAmountSubunitsWithPayinCurrencySpotPrice oor a b n p).1 = some r) :
    -(2 ^ 63) ≤ r ∧ r < 2 ^ 63 := by
  obtain ⟨ka, oa, hka⟩ : ∃ k oe, GetConversionConstants a = (k, oe) := ⟨_, _, rfl⟩
  obtain ⟨kb, ob, hkb⟩ : ∃ k oe, GetConversionConstants b = (k, oe) := ⟨_, _, rfl⟩
  unfold CalculatePayoutAmountSubunitsWithPayinCurrencySpotPrice at h
  rw [hka] at h
  cases oa with
  | some e => exact absurd h (by simp)
  | none =>
    simp only at h
    rw [hkb] at h
    cases ob with
    | some e => exact absurd h (by simp)
    | none =>
      simp only at h
      generalize ParseFloat _ = q at h
      rcases q with ⟨v, _ | e⟩
      · simp only [Option.some.injEq] at h
        rw [← h]
        exact toInt64_range oor _
      · exact absurd h (by simp)

theorem payoutQuoted_range (oor : Float64 → Int) (a b p : GoString) (n r : Int)
    (h : (CalculatePayoutAmountSubunitsWithPayoutCurrencySpotPrice oor a b n p).1 = some r) :
    -(2 ^ 63) ≤ r ∧ r < 2 ^ 63 := by
  obtain ⟨ka, oa, hka⟩ : ∃ k oe, GetConversionConstants a = (k, oe) := ⟨_, _, rfl⟩
  obtain ⟨kb, ob, hkb⟩ : ∃ k oe, GetConversionConstants b = (k, oe) := ⟨_, _, rfl⟩
  unfold CalculatePayoutAmountSubunitsWithPayoutCurrencySpotPrice at h
  rw [hka] at h
  cases oa with
  | some e => exact absurd h (by simp)
  | none =>
    simp only at h
    rw [hkb] at h
    cases ob with
    | some e => exact absurd h (by simp)
    | none =>
      simp only at h
      generalize ParseFloat _ = q at h
      rcases q with ⟨v, _ | e⟩
      · simp only [Option.some.injEq] at h
        rw [← h]
        exact toInt64_range oor _
      · exact absurd h (by simp)

/-- C13 fails on the code: every integer either payout function returns lies in the
`int64` range, whatever the platform; on `("USD", "BTC", 5 * 10^12, "0.000001")` (payin
quoted) and `("USD", "BTC", 5 * 10^12, "1000000")` (payout quoted) the `float64` product is
`4656612873077393 * 2^30`, about `5 * 10^24`, and the integer returned is below `2^63`, so
it is not the truncation of the product. -/
theorem payout_confined_to_int64 :
    (∀ (oor : Float64 → Int) (a b p : GoString) (n r : Int),
      (CalculatePayoutAmountSubunitsWithPayinCurrencySpotPrice oor a b n p).1 = some r →
      -(2 ^ 63) ≤ r ∧ r < 2 ^ 63) ∧
    (∀ (oor : Float64 → Int) (a b p : GoString) (n r : Int),
      (CalculatePayoutAmountSubunitsWithPayoutCurrencySpotPrice oor a b n p).1 = some r →
      -(2 ^ 63) ≤ r ∧ r < 2 ^ 63) ∧
    ((Float64.ofInt 5000000000000).div
        ((ParseFloat "0.000001".toList).1.mul (Float64.ofInt 100))).mul
      (Float64.ofInt 100000000) = Float64.finite false 4656612873077393 30 ∧
    ((Float64.ofInt 5000000000000).div
        ((Float64.ofInt 100).div (ParseFloat "1000000".toList).1)).mul
      (Float64.ofInt 100000000) = Float64.finite false 4656612873077393 30 ∧
    (2 : Int) ^ 63 ≤ 4656612873077393 * 2 ^ 30 ∧
    (∀ oor : Float64 → Int,
      CalculatePayoutAmountSubunitsWithPayinCurrencySpotPrice oor "USD".toList "BTC".toList
        5000000000000 "0.000001".toList
        = (some (wrapInt64 (oor (Float64.finite false 4656612873077393 30))), none)) ∧
    (∀ oor : Float64 → Int,
      CalculatePayoutAmountSubunitsWithPayoutCurrencySpotPrice oor "USD".toList "BTC".toList
        5000000000000 "1000000".toList
        = (some (wrapInt64 (oor (Float64.finite false 4656612873077393 30))), none)) := by
  refine ⟨payinQuoted_range, payoutQuoted_range, rfl, rfl, by norm_num, fun _ => rfl,
    fun _ => rfl⟩

/-! ## The text after the decimal point -/

theorem ConvertSubunitsToUnits_eq (n : Int) (code : GoString) (k : CurrencyConstants)
    (hk : GetConversionConstants code = (k, none)) :
    ConvertSubunitsToUnits n code
      = (FormatInt (Int.tdiv n k.SubunitsPerUnit)
          ++ '.' :: subunitsText k.SigDigs (Int.tmod n k.SubunitsPerUnit), none) := by
  unfold ConvertSubunitsToUnits subunitsText
  rw [hk]

theorem subunitsText_length (d : Nat) (r : Int) : (subunitsText d r).length = d := by
  unfold subunitsText stringsRepeat
  split_ifs with h0 h1 h2
  · simp
  · rw [List.length_append, List.length_replicate]; omega
  · rw [List.length_take]; omega
  · omega

theorem subunitsText_neg (d : Nat) (r : Int) (hd : 0 < d) (hr : r < 0) :
    '-' ∈ subunitsText d r := by
  have hf : FormatInt r = '-' :: formatBits 20 r.natAbs := by
    unfold FormatInt; rw [if_pos hr]
  have h0 : r ≠ 0 := by omega
  unfold subunitsText
  rw [if_neg h0, hf]
  split_ifs with h1 h2
  · exact List.mem_append_right _ (List.mem_cons_self _ _)
  · obtain ⟨e, rfl⟩ : ∃ e, d = e + 1 := ⟨d - 1, by omega⟩
    rw [List.take_succ_cons]
    exact List.mem_cons_self _ _
  · exact List.mem_cons_self _ _

theorem subunitsText_natCast (d r : Nat) (hd : 0 < d) (hr : r < 10 ^ d) :
    subunitsText d (r : Int)
      = List.replicate (d - (formatBits 20 r).length) '0' ++ formatBits 20 r := by
  have hlen : (formatBits 20 r).length ≤ d := formatBits_length_le 20 r d hr hd
  unfold subunitsText stringsRepeat
  rw [FormatInt_ofNat]
  by_cases hz : r = 0
  · subst hz
    have hf : formatBits 20 0 = ['0'] := by decide
    obtain ⟨e, rfl⟩ : ∃ e, d = e + 1 := ⟨d - 1, by omega⟩
    simp [hf, List.replicate_succ']
  · have hz2 : (r : Int) ≠ 0 := by exact_mod_cast hz
    rw [if_neg hz2]
    by_cases hlt : (formatBits 20 r).length < d
    · rw [if_pos hlt]
    · have he : d - (formatBits 20 r).length = 0 := by omega
      rw [if_neg hlt, if_neg (by omega), he]
      simp

theorem tmod_neg_of_neg (n b : Int) (hn : n < 0) (hb : 0 < b) (h : Int.tmod n b ≠ 0) :
    Int.tmod n b < 0 := by
  obtain ⟨m, rfl⟩ := Int.eq_negSucc_of_lt_zero hn
  obtain ⟨s, rfl⟩ := Int.eq_ofNat_of_zero_le (le_of_lt hb)
  have hd : Int.tmod (Int.negSucc m) (s : Int) = -(((m + 1) % s : Nat) : Int) := rfl
  rw [hd] at h ⊢
  omega

theorem subunitsText_digits (d : Nat) (n b : Int) (hd : 0 < d) (hb : 0 < b)
    (hbd : b ≤ 10 ^ d) (h : 0 ≤ n ∨ Int.tmod n b = 0) :
    allDigits (subunitsText d (Int.tmod n b)) := by
  have key : ∀ r : Nat, r < 10 ^ d → allDigits (subunitsText d (r : Int)) := by
    intro r hr
    rw [subunitsText_natCast d r hd hr, allDigits_append]
    have h20 : r < 10 ^ 20 ∨ 20 ≤ d := by
      by_cases h : d ≤ 20
      · left; exact lt_of_lt_of_le hr (Nat.pow_le_pow_right (by norm_num) h)
      · right; omega
    refine ⟨allDigits_replicate_zero _, ?_⟩
    rcases h20 with h20 | h20
    · exact (formatBits_spec 20 r h20 (by norm_num)).1
    · intro c hc
      have hall : ∀ (fuel u : Nat) (c : Char), c ∈ formatBits fuel u → isDigit c = true := by
        intro fuel
        induction fuel with
        | zero => intro u c hc; simp [formatBits] at hc
        | succ f ih =>
          intro u c hc
          unfold formatBits at hc
          split_ifs at hc with hu
          · rw [List.mem_singleton] at hc; subst hc
            exact isDigit_digitChar u hu
          · rw [List.mem_append, List.mem_singleton] at hc
            rcases hc with hc | hc
            · exact ih _ c hc
            · subst hc
              exact isDigit_digitChar _ (Nat.mod_lt _ (by norm_num))
      exact hall 20 r c hc
  rcases h with h | h
  · have h1 : 0 ≤ Int.tmod n b := Int.tmod_nonneg b h
    have h2 : Int.tmod n b < b := Int.tmod_lt_of_pos n hb
    obtain ⟨r, hr⟩ := Int.eq_ofNat_of_zero_le h1
    rw [hr]
    apply key
    have : (r : Int) < 10 ^ d := by rw [← hr]; omega
    exact_mod_cast this
  · rw [h]
    exact key 0 (Nat.pow_pos (by norm_num))

theorem formatBits_allDigits (fuel u : Nat) : allDigits (formatBits fuel u) := by
  induction fuel generalizing u with
  | zero => intro c hc; simp [formatBits] at hc
  | succ f ih =>
    intro c hc
    unfold formatBits at hc
    split_ifs at hc with hu
    · rw [List.mem_singleton] at hc; subst hc
      exact isDigit_digitChar u hu
    · rw [List.mem_append, List.mem_singleton] at hc
      rcases hc with hc | hc
      · exact ih _ c hc
      · subst hc
        exact isDigit_digitChar _ (Nat.mod_lt _ (by norm_num))

theorem FormatInt_sign (q : Int) :
    FormatInt q = (if q < 0 then ['-'] else []) ++ formatBits 20 q.natAbs := by
  unfold FormatInt
  split_ifs <;> rfl

theorem subunitsText_of_ne_zero (d : Nat) (r : Int) (h : r ≠ 0) :
    subunitsText d r
      = List.replicate (d - (FormatInt r).length) '0' ++ (FormatInt r).take d := by
  unfold subunitsText stringsRepeat
  rw [if_neg h]
  by_cases h1 : (FormatInt r).length < d
  · rw [if_pos h1, List.take_of_length_le (le_of_lt h1)]
  · have h0 : d - (FormatInt r).length = 0 := by omega
    rw [if_neg h1, h0]
    by_cases h2 : (FormatInt r).length > d
    · rw [if_pos h2]; simp
    · rw [if_neg h2, List.take_of_length_le (by omega)]; simp

theorem subunitsText_decVal (d : Nat) (n b : Int) (hd : 0 < d) (hd20 : d ≤ 20) (hb : 0 < b)
    (hbd : b ≤ 10 ^ d) (h : 0 ≤ n ∨ Int.tmod n b = 0) :
    decVal (subunitsText d (Int.tmod n b)) = (Int.tmod n b).toNat := by
  have key : ∀ r : Nat, r < 10 ^ d → decVal (subunitsText d (r : Int)) = r := by
    intro r hr
    have h20 : r < 10 ^ 20 := lt_of_lt_of_le hr (Nat.pow_le_pow_right (by norm_num) hd20)
    rw [subunitsText_natCast d r hd hr, decVal_append, decVal_replicate_zero,
      (formatBits_spec 20 r h20 (by norm_num)).2.1]
    simp
  rcases h with h | h
  · have h1 : 0 ≤ Int.tmod n b := Int.tmod_nonneg b h
    have h2 : Int.tmod n b < b := Int.tmod_lt_of_pos n hb
    obtain ⟨r, hr⟩ := Int.eq_ofNat_of_zero_le h1
    rw [hr, Int.toNat_ofNat]
    apply key
    have : (r : Int) < 10 ^ d := by rw [← hr]; omega
    exact_mod_cast this
  · rw [h]
    exact key 0 (Nat.pow_pos (by norm_num))

theorem tmod_natAbs_lt (n b : Int) (hb : 0 < b) : ((Int.tmod n b).natAbs : Int) < b := by
  rcases lt_or_le n 0 with hn | hn
  · obtain ⟨m, rfl⟩ := Int.eq_negSucc_of_lt_zero hn
    obtain ⟨s, rfl⟩ := Int.eq_ofNat_of_zero_le (le_of_lt hb)
    have hd : Int.tmod (Int.negSucc m) (s : Int) = -(((m + 1) % s : Nat) : Int) := rfl
    rw [hd, Int.natAbs_neg, Int.natAbs_ofNat]
    have hs : 0 < s := by omega
    exact_mod_cast Nat.mod_lt (m + 1) hs
  · have h1 : 0 ≤ Int.tmod n b := Int.tmod_nonneg b hn
    have h2 : Int.tmod n b < b := Int.tmod_lt_of_pos n hb
    omega

/-- C18 as stated fails: for `-5` subunits of USD the whole part is `"0"`, without a sign,
and the text after the decimal point is `"-5"`: it contains a `'-'` and is not two decimal
digits; `-150` gives `"-1.-5"`, the remainder `"-50"` cut to two bytes. -/
theorem ConvertSubunitsToUnits_negative_remainder :
    ConvertSubunitsToUnits (-5) "USD".toList = ("0.-5".toList, none) ∧
    ConvertSubunitsToUnits (-150) "USD".toList = ("-1.-5".toList, none) ∧
    ¬ allDigits "-5".toList := by
  refine ⟨by decide, by decide, by decide⟩

/-- C18 amended: for a currency the registry accepts and every `int64` amount `n`, the
output is the formatted whole part `n / S` (truncated toward zero; a `'-'` when it is
negative, then its digits), a point, and a text `F` of exactly `SigDigs` bytes.  When
`n ≥ 0` or the remainder is zero, `F` is the `SigDigs`-digit decimal numeral of the
remainder, so the only sign is that of the whole part.  When `n < 0` and the remainder `r`
is not zero, `F` is the formatted remainder, `'-'` followed by the canonical numeral of
`|r|`, left-padded with zeros to `SigDigs` bytes or cut to its first `SigDigs` bytes, so
`F` contains a `'-'`. -/
theorem ConvertSubunitsToUnits_sign (n : Int) (code : GoString) (k : CurrencyConstants)
    (hk : GetConversionConstants code = (k, none)) :
    ∃ F, ConvertSubunitsToUnits n code
        = (FormatInt (Int.tdiv n k.SubunitsPerUnit) ++ '.' :: F, none) ∧
      FormatInt (Int.tdiv n k.SubunitsPerUnit)
        = (if Int.tdiv n k.SubunitsPerUnit < 0 then ['-'] else [])
            ++ formatBits 20 (Int.tdiv n k.SubunitsPerUnit).natAbs ∧
      allDigits (formatBits 20 (Int.tdiv n k.SubunitsPerUnit).natAbs) ∧
      F.length = k.SigDigs ∧
      (0 ≤ n ∨ Int.tmod n k.SubunitsPerUnit = 0 →
        allDigits F ∧ decVal F = (Int.tmod n k.SubunitsPerUnit).toNat) ∧
      (n < 0 → Int.tmod n k.SubunitsPerUnit ≠ 0 →
        FormatInt (Int.tmod n k.SubunitsPerUnit)
          = '-' :: formatBits 20 (Int.tmod n k.SubunitsPerUnit).natAbs ∧
        canonicalDecimal (formatBits 20 (Int.tmod n k.SubunitsPerUnit).natAbs)
          (Int.tmod n k.SubunitsPerUnit).natAbs ∧
        F = List.replicate
              (k.SigDigs - (FormatInt (Int.tmod n k.SubunitsPerUnit)).length) '0'
            ++ (FormatInt (Int.tmod n k.SubunitsPerUnit)).take k.SigDigs ∧
        '-' ∈ F ∧ ¬ allDigits F) := by
  obtain ⟨-, hS0, hSle, hD0, hD8⟩ := constants_of_ok code k hk
  refine ⟨subunitsText k.SigDigs (Int.tmod n k.SubunitsPerUnit),
    ConvertSubunitsToUnits_eq n code k hk, FormatInt_sign _, formatBits_allDigits _ _,
    subunitsText_length _ _, ?_, ?_⟩
  · intro h
    exact ⟨subunitsText_digits k.SigDigs n k.SubunitsPerUnit hD0 hS0 hSle h,
      subunitsText_decVal k.SigDigs n k.SubunitsPerUnit hD0 (by omega) hS0 hSle h⟩
  · intro hn hr
    have hneg := tmod_neg_of_neg n _ hn hS0 hr
    have hmem := subunitsText_neg k.SigDigs _ hD0 hneg
    have habs := tmod_natAbs_lt n k.SubunitsPerUnit hS0
    have h8 : (10 : Int) ^ k.SigDigs ≤ 10 ^ 8 := pow_le_pow_right₀ (by norm_num) hD8
    have h20 : (Int.tmod n k.SubunitsPerUnit).natAbs < 10 ^ 20 := by
      have : ((Int.tmod n k.SubunitsPerUnit).natAbs : Int) < 10 ^ 20 := by
        have : (10 : Int) ^ 8 < 10 ^ 20 := by norm_num
        omega
      exact_mod_cast this
    refine ⟨?_, formatBits_spec 20 _ h20 (by norm_num), subunitsText_of_ne_zero _ _ hr, hmem,
      fun hall => absurd (hall _ hmem) (by decide)⟩
    unfold FormatInt
    rw [if_pos hneg]

/-- Witness of C18 amended: `-5` subunits of USDC give `"0.0000-5"` (the remainder `"-5"`
left-padded to six bytes), `-150` of USD give `"-1.-5"` (the remainder `"-50"` cut to two
bytes), `-5` of USD give `"0.-5"` and `-200` of USD give `"-2.00"`. -/
theorem ConvertSubunitsToUnits_sign_witness :
    (∃ F, ConvertSubunitsToUnits (-5) "USDC".toList
        = (FormatInt (Int.tdiv (-5) 100) ++ '.' :: F, none) ∧
      FormatInt (Int.tdiv (-5) 100)
        = (if Int.tdiv (-5) 100 < 0 then ['-'] else [])
            ++ formatBits 20 (Int.tdiv (-5) 100).natAbs ∧
      allDigits (formatBits 20 (Int.tdiv (-5) 100).natAbs) ∧
      F.length = 6 ∧
      (0 ≤ (-5 : Int) ∨ Int.tmod (-5) 100 = 0 →
        allDigits F ∧ decVal F = (Int.tmod (-5) 100).toNat) ∧
      ((-5 : Int) < 0 → Int.tmod (-5) 100 ≠ 0 →
        FormatInt (Int.tmod (-5) 100) = '-' :: formatBits 20 (Int.tmod (-5) 100).natAbs ∧
        canonicalDecimal (formatBits 20 (Int.tmod (-5) 100).natAbs)
          (Int.tmod (-5) 100).natAbs ∧
        F = List.replicate (6 - (FormatInt (Int.tmod (-5) 100)).length) '0'
            ++ (FormatInt (Int.tmod (-5) 100)).take 6 ∧
        '-' ∈ F ∧ ¬ allDigits F)) ∧
    ConvertSubunitsToUnits (-5) "USDC".toList = ("0.0000-5".toList, none) ∧
    ConvertSubunitsToUnits (-150) "USD".toList = ("-1.-5".toList, none) ∧
    ConvertSubunitsToUnits (-5) "USD".toList = ("0.-5".toList, none) ∧
    ConvertSubunitsToUnits (-200) "USD".toList = ("-2.00".toList, none) ∧
    List.replicate (6 - (FormatInt (Int.tmod (-5) 100)).length) '0'
      ++ (FormatInt (Int.tmod (-5) 100)).take 6 = "0000-5".toList ∧
    List.replicate (2 - (FormatInt (Int.tmod (-150) 100)).length) '0'
      ++ (FormatInt (Int.tmod (-150) 100)).take 2 = "-5".toList :=
  ⟨ConvertSubunitsToUnits_sign (-5) "USDC".toList ⟨100, 6⟩ rfl,
   by decide, by decide, by decide, by decide, by decide, by decide⟩

/-! ## Round trips on the currencies whose scale is `10^SigDigs` -/

theorem scaleConsistent_constants (code : GoString) (h : code ∈ scaleConsistent) :
    ∃ k, GetConversionConstants code = (k, none) ∧
      k.SubunitsPerUnit = ((10 ^ k.SigDigs : Nat) : Int) ∧ 0 < k.SigDigs ∧ k.SigDigs ≤ 8 := by
  simp only [scaleConsistent, List.mem_cons, List.mem_singleton, List.not_mem_nil,
    or_false] at h
  rcases h with rfl | rfl | rfl | rfl
  · exact ⟨⟨100000000, 8⟩, by decide, by decide, by decide, by decide⟩
  · exact ⟨⟨100, 2⟩, by decide, by decide, by decide, by decide⟩
  · exact ⟨⟨100, 2⟩, by decide, by decide, by decide, by decide⟩
  · exact ⟨⟨100, 2⟩, by decide, by decide, by decide, by decide⟩

theorem ConvertSubunitsToUnits_nat (code : GoString) (k : CurrencyConstants) (m : Nat)
    (hk : GetConversionConstants code = (k, none))
    (hS : k.SubunitsPerUnit = ((10 ^ k.SigDigs : Nat) : Int)) (hD : 0 < k.SigDigs) :
    ConvertSubunitsToUnits (m : Int) code
      = (formatBits 20 (m / 10 ^ k.SigDigs) ++ '.' ::
          (List.replicate (k.SigDigs - (formatBits 20 (m % 10 ^ k.SigDigs)).length) '0'
            ++ formatBits 20 (m % 10 ^ k.SigDigs)), none) := by
  have hd : Int.tdiv (m : Int) ((10 ^ k.SigDigs : Nat) : Int)
      = ((m / 10 ^ k.SigDigs : Nat) : Int) := by
    rw [Int.tdiv_eq_ediv (Int.ofNat_nonneg _) (Int.ofNat_nonneg _)]
    exact (Int.natCast_div m _).symm
  have hm : Int.tmod (m : Int) ((10 ^ k.SigDigs : Nat) : Int)
      = ((m % 10 ^ k.SigDigs : Nat) : Int) := by
    rw [Int.tmod_eq_emod (Int.ofNat_nonneg _) (Int.ofNat_nonneg _)]
    exact (Int.natCast_mod m _).symm
  rw [ConvertSubunitsToUnits_eq (m : Int) code k hk, hS, hd, hm, FormatInt_ofNat,
    subunitsText_natCast k.SigDigs _ hD (Nat.mod_lt _ (Nat.pow_pos (by norm_num)))]

theorem decVal_zeros_append (j : Nat) (x : GoString) :
    decVal (List.replicate j '0' ++ x) = decVal x := by
  rw [decVal_append, decVal_replicate_zero]; simp

/-- C19: for every code in `"BTC"`, `"USD"`, `"KES"`, `"MXN"` and every `int64` amount `n`
with `0 ≤ n ≤ 2^63 - 1`, `ConvertSubunitsToUnits` succeeds and `ConvertUnitsToSubunits` on its
result succeeds and returns the canonical decimal numeral of `n`. -/
theorem roundTrip_scaleConsistent (code : GoString) (n : Int) (hc : code ∈ scaleConsistent)
    (h0 : 0 ≤ n) (h63 : n ≤ 2 ^ 63 - 1) :
    (ConvertSubunitsToUnits n code).2 = none ∧
    ConvertUnitsToSubunits (ConvertSubunitsToUnits n code).1 code = (FormatInt n, none) ∧
    canonicalDecimal (FormatInt n) n.toNat := by
  obtain ⟨k, hk, hS, hD, -⟩ := scaleConsistent_constants code hc
  obtain ⟨m, rfl⟩ := Int.eq_ofNat_of_zero_le h0
  have hm63 : m < 2 ^ 63 := by
    have : (m : Int) < 2 ^ 63 := by omega
    exact_mod_cast this
  have h20 : (2 : Nat) ^ 63 < 10 ^ 20 := by norm_num
  have hP : 0 < 10 ^ k.SigDigs := Nat.pow_pos (by norm_num)
  have hq20 : m / 10 ^ k.SigDigs < 10 ^ 20 :=
    lt_of_le_of_lt (Nat.div_le_self _ _) (by omega)
  have hr20 : m % 10 ^ k.SigDigs < 10 ^ 20 :=
    lt_of_le_of_lt (Nat.mod_le _ _) (by omega)
  obtain ⟨hW1, hW2, hW3, -⟩ := formatBits_spec 20 (m / 10 ^ k.SigDigs) hq20 (by norm_num)
  obtain ⟨hR1, hR2, -, -⟩ := formatBits_spec 20 (m % 10 ^ k.SigDigs) hr20 (by norm_num)
  have hRlen : (formatBits 20 (m % 10 ^ k.SigDigs)).length ≤ k.SigDigs :=
    formatBits_length_le 20 _ k.SigDigs (Nat.mod_lt _ hP) hD
  have hF1 : allDigits (List.replicate
      (k.SigDigs - (formatBits 20 (m % 10 ^ k.SigDigs)).length) '0'
        ++ formatBits 20 (m % 10 ^ k.SigDigs)) :=
    (allDigits_append _ _).2 ⟨allDigits_replicate_zero _, hR1⟩
  have hFlen : (List.replicate
      (k.SigDigs - (formatBits 20 (m % 10 ^ k.SigDigs)).length) '0'
        ++ formatBits 20 (m % 10 ^ k.SigDigs)).length = k.SigDigs := by
    rw [List.length_append, List.length_replicate]; omega
  have hconv := ConvertSubunitsToUnits_nat code k m hk hS hD
  refine ⟨by rw [hconv], ?_, ?_⟩
  · rw [hconv]
    simp only
    rw [ConvertUnitsToSubunits_point code k hk _ _
      (not_mem_of_allDigits _ ',' hW1 comma_not_digit)
      (not_mem_of_allDigits _ '.' hW1 point_not_digit)
      (not_mem_of_allDigits _ ',' hF1 comma_not_digit)
      (not_mem_of_allDigits _ '.' hF1 point_not_digit)]
    have hV : decVal (formatBits 20 (m / 10 ^ k.SigDigs)) * 10 ^ k.SigDigs
        + decVal (List.replicate
            (k.SigDigs - (formatBits 20 (m % 10 ^ k.SigDigs)).length) '0'
              ++ formatBits 20 (m % 10 ^ k.SigDigs))
          * 10 ^ (k.SigDigs - (List.replicate
            (k.SigDigs - (formatBits 20 (m % 10 ^ k.SigDigs)).length) '0'
              ++ formatBits 20 (m % 10 ^ k.SigDigs)).length) = m := by
      rw [hFlen, decVal_zeros_append, hW2, hR2, Nat.sub_self, pow_zero, Nat.mul_one]
      exact Nat.div_add_mod' m (10 ^ k.SigDigs)
    have := segmentsToSubunits_digits k.SigDigs _ _ hW3 hW1 hF1 (le_of_eq hFlen)
      (by rw [hV]; exact hm63)
    rw [this, hV]
  · rw [Int.toNat_ofNat]
    exact FormatInt_canonical m (by omega)

/-- Witness of C19: `2^63 - 1` subunits of USD are formatted as `"92233720368547758.07"`
and read back as `"9223372036854775807"`. -/
theorem roundTrip_scaleConsistent_witness :
    (ConvertSubunitsToUnits 9223372036854775807 "USD".toList).2 = none ∧
    ConvertUnitsToSubunits (ConvertSubunitsToUnits 9223372036854775807 "USD".toList).1
      "USD".toList = (FormatInt 9223372036854775807, none) ∧
    canonicalDecimal (FormatInt 9223372036854775807) (9223372036854775807 : Int).toNat ∧
    ConvertSubunitsToUnits 9223372036854775807 "USD".toList
      = ("92233720368547758.07".toList, none) ∧
    FormatInt 9223372036854775807 = "9223372036854775807".toList :=
  have h := roundTrip_scaleConsistent "USD".toList 9223372036854775807 (by decide)
    (by norm_num) (by norm_num)
  ⟨h.1, h.2.1, h.2.2, by decide, by decide⟩

/-! ## Uniqueness of decimal numerals -/

theorem digitVal_inj (c d : Char) (hc : isDigit c = true) (hd : isDigit d = true)
    (h : digitVal c = digitVal d) : c = d := by
  unfold isDigit at hc hd
  unfold digitVal at h
  simp only [Bool.and_eq_true, decide_eq_true_eq] at hc hd
  have ht : c.toNat = d.toNat := by omega
  rw [← Char.ofNat_toNat c, ← Char.ofNat_toNat d, ht]

theorem decVal_inj_of_length (a b : GoString) (ha : allDigits a) (hb : allDigits b)
    (hl : a.length = b.length) (h : decVal a = decVal b) : a = b := by
  induction a generalizing b with
  | nil =>
    cases b with
    | nil => rfl
    | cons d b2 => simp at hl
  | cons c a2 ih =>
    cases b with
    | nil => simp at hl
    | cons d b2 =>
      rw [allDigits_cons] at ha hb
      have hl2 : a2.length = b2.length := by simpa using hl
      rw [decVal_cons, decVal_cons, hl2] at h
      have hu := decVal_lt_pow a2 ha.2
      have hv := decVal_lt_pow b2 hb.2
      rw [hl2] at hu
      have hP : 0 < 10 ^ b2.length := Nat.pow_pos (by norm_num)
      have hdiv : digitVal c = digitVal d := by
        have h1 := congrArg (fun x => x / 10 ^ b2.length) h
        simp only at h1
        rw [Nat.mul_comm (digitVal c), Nat.mul_comm (digitVal d), Nat.mul_add_div hP,
          Nat.mul_add_div hP, Nat.div_eq_of_lt hu, Nat.div_eq_of_lt hv] at h1
        simpa using h1
      have hmod : decVal a2 = decVal b2 := by
        rw [hdiv] at h
        exact Nat.add_left_cancel h
      rw [digitVal_inj c d ha.1 hb.1 hdiv, ih b2 ha.2 hb.2 hl2 hmod]

theorem canonicalDecimal_zero (a : GoString) (h : canonicalDecimal a 0) : a = ['0'] := by
  obtain ⟨hd, hv, hne, hz⟩ := h
  cases a with
  | nil => exact absurd rfl hne
  | cons c a2 =>
    rw [allDigits_cons] at hd
    rw [decVal_cons] at hv
    have hP : 0 < 10 ^ a2.length := Nat.pow_pos (by norm_num)
    have hc0 : digitVal c = 0 := by
      rcases Nat.eq_zero_or_pos (digitVal c) with h0 | h0
      · exact h0
      · have := Nat.mul_pos h0 hP
        omega
    have hc : c = '0' := digitVal_inj c '0' hd.1 (by decide) (by rw [hc0]; rfl)
    exact hz (by rw [hc]; rfl)

theorem canonicalDecimal_bounds (a : GoString) (v : Nat) (h : canonicalDecimal a v)
    (hv0 : 0 < v) : 10 ^ (a.length - 1) ≤ v ∧ v < 10 ^ a.length := by
  obtain ⟨hd, hv, hne, hz⟩ := h
  refine ⟨?_, by rw [← hv]; exact decVal_lt_pow a hd⟩
  cases a with
  | nil => exact absurd rfl hne
  | cons c a2 =>
    rw [allDigits_cons] at hd
    rw [decVal_cons] at hv
    simp only [List.length_cons, Nat.add_sub_cancel]
    have hc1 : 1 ≤ digitVal c := by
      rcases Nat.eq_zero_or_pos (digitVal c) with h0 | h0
      · have hc : c = '0' := digitVal_inj c '0' hd.1 (by decide) (by rw [h0]; rfl)
        have ha := hz (by rw [hc]; rfl)
        have h2 : a2 = [] := (List.cons.inj ha).2
        subst h2
        rw [h0] at hv
        simp [decVal, decValFrom] at hv
        omega
      · exact h0
    have := Nat.mul_le_mul_right (10 ^ a2.length) hc1
    omega

theorem canonicalDecimal_unique (a b : GoString) (v : Nat) (ha : canonicalDecimal a v)
    (hb : canonicalDecimal b v) : a = b := by
  rcases Nat.eq_zero_or_pos v with h0 | h0
  · subst h0
    rw [canonicalDecimal_zero a ha, canonicalDecimal_zero b hb]
  · obtain ⟨ha1, ha2⟩ := canonicalDecimal_bounds a v ha h0
    obtain ⟨hb1, hb2⟩ := canonicalDecimal_bounds b v hb h0
    have hane : 0 < a.length := List.length_pos.2 ha.2.2.1
    have hbne : 0 < b.length := List.length_pos.2 hb.2.2.1
    have hl : a.length = b.length := by
      rcases Nat.lt_trichotomy a.length b.length with h | h | h
      · have : 10 ^ a.length ≤ 10 ^ (b.length - 1) :=
          Nat.pow_le_pow_right (by norm_num) (by omega)
        omega
      · exact h
      · have : 10 ^ b.length ≤ 10 ^ (a.length - 1) :=
          Nat.pow_le_pow_right (by norm_num) (by omega)
        omega
    exact decVal_inj_of_length a b ha.1 hb.1 hl (by rw [ha.2.1, hb.2.1])

/-- C20: for every code in `"BTC"`, `"USD"`, `"KES"`, `"MXN"` and every string
`s = W ++ "." ++ F` with `W` a canonical non-negative decimal numeral, `F` exactly `SigDigs`
decimal digits and the scaled value at most `2^63 - 1`: `ConvertUnitsToSubunits` succeeds on
`s` with some `t`, and `ConvertSubunitsToUnits` on the integer `t` denotes returns `s`. -/
theorem reverseRoundTrip_scaleConsistent (code W F : GoString)
    (hc : code ∈ scaleConsistent) (hW : canonicalDecimal W (decVal W)) (hF : allDigits F)
    (hlen : F.length = (GetConversionConstants code).1.SigDigs)
    (hv : decVal W * 10 ^ (GetConversionConstants code).1.SigDigs + decVal F ≤ 2 ^ 63 - 1) :
    ∃ t, ConvertUnitsToSubunits (W ++ '.' :: F) code = (t, none) ∧
      (ParseInt t).2 = none ∧
      ConvertSubunitsToUnits (ParseInt t).1 code = (W ++ '.' :: F, none) := by
  obtain ⟨k, hk, hS, hD, -⟩ := scaleConsistent_constants code hc
  rw [hk] at hlen hv
  simp only at hlen hv
  have hW1 : allDigits W := hW.1
  have hW3 : W ≠ [] := hW.2.2.1
  have h63 : (2 : Nat) ^ 63 - 1 < 2 ^ 63 := by norm_num
  have h20 : (2 : Nat) ^ 63 < 10 ^ 20 := by norm_num
  have hP : 0 < 10 ^ k.SigDigs := Nat.pow_pos (by norm_num)
  have hFlt : decVal F < 10 ^ k.SigDigs := by
    have := decVal_lt_pow F hF
    rwa [hlen] at this
  have hseg := segmentsToSubunits_digits k.SigDigs W F hW3 hW1 hF (le_of_eq hlen)
    (by rw [hlen, Nat.sub_self, pow_zero, Nat.mul_one]; omega)
  rw [hlen, Nat.sub_self, pow_zero, Nat.mul_one, FormatInt_ofNat] at hseg
  obtain ⟨hT1, hT2, hT3, -⟩ :=
    formatBits_spec 20 (decVal W * 10 ^ k.SigDigs + decVal F) (by omega) (by norm_num)
  have hparse := ParseInt_digits _ hT3 hT1 (by rw [hT2]; omega)
  rw [hT2] at hparse
  refine ⟨formatBits 20 (decVal W * 10 ^ k.SigDigs + decVal F), ?_, ?_, ?_⟩
  · rw [ConvertUnitsToSubunits_point code k hk W F
      (not_mem_of_allDigits _ ',' hW1 comma_not_digit)
      (not_mem_of_allDigits _ '.' hW1 point_not_digit)
      (not_mem_of_allDigits _ ',' hF comma_not_digit)
      (not_mem_of_allDigits _ '.' hF point_not_digit)]
    exact hseg
  · rw [hparse]
  · rw [hparse]
    simp only
    rw [ConvertSubunitsToUnits_nat code k _ hk hS hD]
    have hq : (decVal W * 10 ^ k.SigDigs + decVal F) / 10 ^ k.SigDigs = decVal W := by
      rw [Nat.mul_comm, Nat.mul_add_div hP, Nat.div_eq_of_lt hFlt, Nat.add_zero]
    have hr : (decVal W * 10 ^ k.SigDigs + decVal F) % 10 ^ k.SigDigs = decVal F := by
      rw [Nat.mul_comm, Nat.mul_add_mod, Nat.mod_eq_of_lt hFlt]
    rw [hq, hr]
    have hWlt : decVal W < 10 ^ 20 := by
      have : decVal W ≤ decVal W * 10 ^ k.SigDigs := Nat.le_mul_of_pos_right _ hP
      omega
    have hWeq : formatBits 20 (decVal W) = W :=
      canonicalDecimal_unique _ _ (decVal W) (formatBits_spec 20 _ hWlt (by norm_num)) hW
    have hRspec := formatBits_spec 20 (decVal F) (by omega) (by norm_num)
    have hRlen : (formatBits 20 (decVal F)).length ≤ k.SigDigs :=
      formatBits_length_le 20 _ k.SigDigs hFlt hD
    have hFeq : List.replicate (k.SigDigs - (formatBits 20 (decVal F)).length) '0'
        ++ formatBits 20 (decVal F) = F := by
      apply decVal_inj_of_length
      · exact (allDigits_append _ _).2 ⟨allDigits_replicate_zero _, hRspec.1⟩
      · exact hF
      · rw [List.length_append, List.length_replicate, hlen]; omega
      · rw [decVal_zeros_append, hRspec.2.1]
    rw [hWeq, hFeq]

/-- Witness of C20: `"1.23"` in USD gives `"123"`, and 123 subunits of USD give `"1.23"`;
`"0.00506379"` in BTC gives `"506379"` and back. -/
theorem reverseRoundTrip_scaleConsistent_witness :
    (∃ t, ConvertUnitsToSubunits "1.23".toList "USD".toList = (t, none) ∧
      (ParseInt t).2 = none ∧
      ConvertSubunitsToUnits (ParseInt t).1 "USD".toList = ("1.23".toList, none)) ∧
    (∃ t, ConvertUnitsToSubunits "0.00506379".toList "BTC".toList = (t, none) ∧
      (ParseInt t).2 = none ∧
      ConvertSubunitsToUnits (ParseInt t).1 "BTC".toList = ("0.00506379".toList, none)) ∧
    ConvertUnitsToSubunits "1.23".toList "USD".toList = ("123".toList, none) ∧
    ConvertSubunitsToUnits 123 "USD".toList = ("1.23".toList, none) :=
  ⟨reverseRoundTrip_scaleConsistent "USD".toList "1".toList "23".toList (by decide)
      (by decide) (by decide) (by decide) (by decide),
   reverseRoundTrip_scaleConsistent "BTC".toList "0".toList "00506379".toList (by decide)
      (by decide) (by decide) (by decide) (by decide),
   by decide, by decide⟩

end Girlmath
